import Mathlib

/-!
Verification of the multi-provider dispatch-and-validate layer of the
Prompt-Experiments repository.

The Python sources under `services/` and `models/` are shallowly embedded:

* JSON values (Python dicts / `model_json_schema()` output) become the
  inductive `Json`; Python `dict` operations (`pop`, `update`, key test,
  insertion-order iteration) become association-list operations that
  preserve insertion order exactly as CPython dicts do.
* `get_flattened_schema` (gemini_service.py) becomes a fuel-indexed
  function `resolveDefs` / `get_flattened_schema`; fuel exhaustion returns
  `none`, and a separate adequacy theorem shows some fuel always suffices,
  which is the embedding of "the recursion terminates".
* The provider adapters (`send_prompt` of openai/anthropic/gemini
  services) become total functions over an oracle describing the remote
  provider's response; a Python exception is `PyExn`, fallible code
  returns `Except PyExn α`, and each adapter's `try/except` wrapper is
  modeled explicitly.
* Pydantic validation of `JudgeResponse` (models/JudgeResponse.py: five
  `Optional[int]` fields) is embedded concretely, including lax-mode
  coercion of numeric strings; `BrainWorkoutResult` validation is kept as
  an oracle parameter since no claim depends on its field structure.
-/

namespace PromptExp

/-- JSON-like values: the shape of Python dict/list/str/int/bool/None data
as produced by `model_json_schema()`, `json.loads`, and tool-call
arguments.  Object fields keep insertion order, as CPython dicts do. -/
inductive Json where
  | null : Json
  | jbool : Bool → Json
  | jint : Int → Json
  | jstr : String → Json
  | jarr : List Json → Json
  | jobj : List (String × Json) → Json
deriving Repr, Inhabited

/-- First value bound to `key`, like Python `d.get(key)` / `d[key]`
(CPython dicts have unique keys; these association lists do too in every
use below). -/
def lookup? : List (String × Json) → String → Option Json
  | [], _ => none
  | (k, v) :: rest, key => if k = key then some v else lookup? rest key

/-- Python `d.pop(key, None)`: drop the binding of `key`. -/
def removeKey : List (String × Json) → String → List (String × Json)
  | [], _ => []
  | (k, v) :: rest, key =>
    if k = key then removeKey rest key else (k, v) :: removeKey rest key

/-- Python `d[key] = v`: overwrite in place if present (keeping the key's
position, as CPython does), otherwise append. -/
def setKey : List (String × Json) → String → Json → List (String × Json)
  | [], key, v => [(key, v)]
  | (k, w) :: rest, key, v =>
    if k = key then (key, v) :: rest else (k, w) :: setKey rest key v

/-- Python `base.update(upd)`: assign every binding of `upd` into `base`,
in iteration order. -/
def dictUpdate (base upd : List (String × Json)) : List (String × Json) :=
  upd.foldl (fun acc kv => setKey acc kv.1 kv.2) base

/-- The bindings of an object; Python code below only ever calls
`update(x)` with `x` a dict, so non-objects contribute nothing. -/
def objEntries : Json → List (String × Json)
  | .jobj kvs => kvs
  | _ => []

/-- Accumulates the current `/`-separated segment (reversed); resets at
each separator, so the final segment survives. -/
def refNameAux : List Char → List Char → List Char
  | seg, [] => seg.reverse
  | seg, c :: rest =>
    if c = '/' then refNameAux [] rest else refNameAux (c :: seg) rest

/-- Python `ref.split("/")[-1]`: the last `/`-separated component. -/
def refName (ref : String) : String :=
  String.mk (refNameAux [] ref.toList)

/-- Membership test for a key, like Python `key in d`. -/
def hasKey (kvs : List (String × Json)) (key : String) : Bool :=
  (lookup? kvs key).isSome

/-- `firstNonNullOption options` models the `anyOf` collapse loop of
`_resolve` in gemini_service.py: the first option whose `.get("type")`
is not `"null"` (a missing `type` also qualifies, exactly as
`option.get("type") != "null"` does).  Options are dicts in every
pydantic-produced schema; a non-dict option (which would raise in
Python's `option.get`) is skipped. -/
def firstNonNullOption : List Json → Option Json
  | [] => none
  | .jobj okvs :: rest =>
    match lookup? okvs "type" with
    | some (.jstr s) =>
      if s = "null" then firstNonNullOption rest else some (.jobj okvs)
    | _ => some (.jobj okvs)
  | _ :: rest => firstNonNullOption rest

/-- Python `schema_part.pop("title", None)` at the end of `_resolve`. -/
def popTitle : Json → Json
  | .jobj kvs => .jobj (removeKey kvs "title")
  | j => j

/-- The generic open-ended object marker substituted for a `$ref` whose
ref string was already resolved: `schema_part.pop("$ref");
schema_part.update({"type": "object"})`. -/
def markerObj (kvs : List (String × Json)) : Json :=
  .jobj (dictUpdate (removeKey kvs "$ref") [("type", .jstr "object")])

/-- Task selector for the single fuel-structural embedding of `_resolve`:
`res j` is a call `_resolve(j)`; `aft j` is the portion of `_resolve`
after the `$ref` block (the `anyOf` collapse, the `properties` loop, the
`items` recursion, the final `pop("title", None)`, in that order); and
`props kvs` is the `for prop_name, prop in ...["properties"].items()`
loop over the remaining properties, whose result is wrapped as an object.
One function with a task argument (instead of three mutual ones) keeps
the recursion structural in the fuel, so concrete runs reduce in the
kernel. -/
inductive RTask where
  | res (j : Json)
  | aft (j : Json)
  | props (kvs : List (String × Json))

/-- `runResolve defs fuel resolved t` embeds the inner `_resolve` of
`get_flattened_schema` (gemini_service.py lines 29-67), made functional:
`resolved` is the `resolved_refs` set (a global, shared across the whole
traversal, not per-path), threaded through and returned.  `none` means
the fuel ran out; adequacy is proved separately.  Python's shallow
`defs[...].copy()` aliasing is modeled as an immutable `defs` table: for
pydantic-generated schemas each definition name has a unique ref string,
where the two agree.  A non-string `$ref` or a non-dict node (which
pydantic never produces and which would raise in Python) is left
untouched.  The `props` task returns its object wrapped in `.jobj`; the
consumer pattern for any other shape returns `none` (unreachable, as the
adequacy proof shows). -/
def runResolve (defs : List (String × Json)) :
    Nat → List String → RTask → Option (List String × Json)
  | 0, _, _ => none
  | fuel + 1, resolved, .res j =>
    match j with
    | .jobj kvs =>
      match lookup? kvs "$ref" with
      | some (.jstr ref) =>
        if ref ∈ resolved then
          -- circular/global repeat: drop the $ref, substitute a generic
          -- object, and return early (skipping anyOf/properties/items).
          some (resolved, markerObj kvs)
        else
          match lookup? defs (refName ref) with
          | some defSchema =>
            match runResolve defs fuel (ref :: resolved)
                (.res (.jobj (dictUpdate (removeKey kvs "$ref") (objEntries defSchema)))) with
            | none => none
            | some (r1, j1) => runResolve defs fuel r1 (.aft j1)
          | none => runResolve defs fuel resolved (.aft j)
      | _ => runResolve defs fuel resolved (.aft j)
    | _ => runResolve defs fuel resolved (.aft j)
  | fuel + 1, resolved, .aft j =>
    let step1 : Option (List String × Json) :=
      match j with
      | .jobj kvs =>
        match lookup? kvs "anyOf" with
        | some (.jarr options) =>
          match firstNonNullOption options with
          | some opt =>
            runResolve defs fuel resolved
              (.res (.jobj (dictUpdate (removeKey kvs "anyOf") (objEntries opt))))
          | none => some (resolved, j)
        | _ => some (resolved, j)
      | _ => some (resolved, j)
    match step1 with
    | none => none
    | some (r1, j1) =>
      let step2 : Option (List String × Json) :=
        match j1 with
        | .jobj kvs1 =>
          match lookup? kvs1 "properties" with
          | some (.jobj props) =>
            match runResolve defs fuel r1 (.props props) with
            | some (r2, .jobj props2) =>
              some (r2, .jobj (setKey kvs1 "properties" (.jobj props2)))
            | _ => none
          | _ => some (r1, j1)
        | _ => some (r1, j1)
      match step2 with
      | none => none
      | some (r2, j2) =>
        let step3 : Option (List String × Json) :=
          match j2 with
          | .jobj kvs2 =>
            match lookup? kvs2 "items" with
            | some itemsVal =>
              match runResolve defs fuel r2 (.res itemsVal) with
              | none => none
              | some (r3, it3) => some (r3, .jobj (setKey kvs2 "items" it3))
            | none => some (r2, j2)
          | _ => some (r2, j2)
        match step3 with
        | none => none
        | some (r3, j3) => some (r3, popTitle j3)
  | _ + 1, resolved, .props [] => some (resolved, .jobj [])
  | fuel + 1, resolved, .props ((k, v) :: rest) =>
    match runResolve defs fuel resolved (.res v) with
    | none => none
    | some (r1, v1) =>
      match runResolve defs fuel r1 (.props rest) with
      | some (r2, .jobj rest1) => some (r2, .jobj ((k, v1) :: rest1))
      | _ => none

/-- A full `_resolve(schema_part)` call. -/
def resolveDefs (defs : List (String × Json)) (fuel : Nat)
    (resolved : List String) (j : Json) : Option (List String × Json) :=
  runResolve defs fuel resolved (.res j)

/-- `get_flattened_schema` (gemini_service.py lines 16-68), applied to an
already-produced schema dict: if `$defs` is absent the schema is returned
unchanged; otherwise `$defs` is popped and the remainder resolved.
(`$defs` is a dict in every pydantic schema; a non-dict `$defs` value
yields an empty definition table.)  The `fuel` argument bounds the
recursion of the functional embedding; adequacy is proved below. -/
def get_flattened_schema (fuel : Nat) (schema : Json) : Option Json :=
  match schema with
  | .jobj kvs =>
    match lookup? kvs "$defs" with
    | none => some schema
    | some defsVal =>
      match resolveDefs (objEntries defsVal) fuel [] (.jobj (removeKey kvs "$defs")) with
      | none => none
      | some (_, out) => some out
  | _ => some schema

/-! ## Shared service types (services/types.py) -/

/-- The `Provider` enum of services/types.py. -/
inductive Provider where
  | openai | anthropic | gemini | perplexity
deriving Repr, DecidableEq

/-- `Provider.value` strings. -/
def Provider.value : Provider → String
  | .openai => "openai"
  | .anthropic => "anthropic"
  | .gemini => "gemini"
  | .perplexity => "perplexity"

/-- `PromptMessage` dataclass of services/types.py. -/
structure PromptMessage where
  role : String
  content : String
deriving Repr, DecidableEq

/-- `AIResponse` dataclass of services/types.py: the uniform response
envelope.  `tokens_used` and `error` default to `None`. -/
structure AIResponse where
  provider : String
  content : String
  model : String
  tokens_used : Option Int := none
  error : Option String := none
deriving Repr, DecidableEq

/-- A raised Python exception, reduced to its `str(e)` rendering (the
only part the adapters consume). -/
structure PyExn where
  msg : String
deriving Repr, DecidableEq

/-- `tokens_used if tokens_used else None`: Python truthiness turns a
zero token count into `None`. -/
def normTokens : Option Int → Option Int
  | some t => if t = 0 then none else some t
  | none => none

/-- Python truthiness of an optional string (`if key:`): present and
non-empty. -/
def optTruthy : Option String → Bool
  | some s => !(s = "")
  | none => false

/-! ## Rendering helpers

`model_dump_json()` output is rebuilt by concatenation; the brace
characters are written via `Char.ofNat` (123/125). -/

/-- Opening brace as a string. -/
def lcurl : String := String.singleton (Char.ofNat 123)

/-- Closing brace as a string. -/
def rcurl : String := String.singleton (Char.ofNat 125)

/-- JSON rendering of an optional int field value. -/
def renderOptInt : Option Int → String
  | none => "null"
  | some n => toString n

/-! ## JudgeResponse (models/JudgeResponse.py) and pydantic validation

`JudgeResponse` declares five rating fields, each `Optional[int] =
Field(default=None, ...)`.  `model_validate` in pydantic's default lax
mode therefore accepts, per present field: `None`, an `int`, or a string
that parses as an integer (after stripping surrounding whitespace);
everything else — in particular a `dict` such as
`{"score": ..., "reason": ...}` — is rejected with an
"Input should be a valid integer" error for that field.  A missing field
takes the default `None`; extra keys are ignored; a non-dict candidate is
rejected outright.  (Floats do not occur in this embedding's `Json`;
`bool` is rejected for `int` in pydantic v2.) -/

/-- The embedded `JudgeResponse` model: five `Optional[int]` rating
fields, declaration order as in models/JudgeResponse.py. -/
structure JudgeResponse where
  clarity : Option Int
  specificity : Option Int
  relevance : Option Int
  actionability : Option Int
  approachability : Option Int
deriving Repr, DecidableEq

/-- Whitespace-trim over characters (Python `str.strip()` /
pydantic's lax trimming before int conversion). -/
def trimChars (l : List Char) : List Char :=
  ((l.dropWhile Char.isWhitespace).reverse.dropWhile Char.isWhitespace).reverse

/-- Accumulating decimal digits; fails on the first non-digit. -/
def digitsToNat (acc : Nat) : List Char → Option Nat
  | [] => some acc
  | c :: rest =>
    if c.isDigit then digitsToNat (acc * 10 + (c.toNat - 48)) rest else none

/-- Lax-mode string-to-int coercion: optional sign, then a non-empty
digit run, with surrounding whitespace ignored. -/
def laxStrToInt (s : String) : Option Int :=
  match trimChars s.toList with
  | [] => none
  | '-' :: rest =>
    if rest.isEmpty then none else (digitsToNat 0 rest).map (fun n => -(n : Int))
  | '+' :: rest =>
    if rest.isEmpty then none else (digitsToNat 0 rest).map (fun n => (n : Int))
  | l => (digitsToNat 0 l).map (fun n => (n : Int))

/-- Lax validation of one `Optional[int]` field value; `none` is a
validation failure. -/
def coerceOptInt : Json → Option (Option Int)
  | .null => some none
  | .jint n => some (some n)
  | .jstr s => (laxStrToInt s).map some
  | _ => none

/-- A pydantic `ValidationError`, reduced to what the adapters render:
either "input was not a dict" or the list of offending field names. -/
inductive ValErr where
  | notDict : ValErr
  | badFields (fields : List String) : ValErr
deriving Repr, DecidableEq

/-- Comma join for error rendering. -/
def joinComma : List String → String
  | [] => ""
  | [s] => s
  | s :: rest => s ++ ", " ++ joinComma rest

/-- The `str(e)` rendering of an embedded `ValidationError` (the Python
text is pydantic-internal; this deterministic stand-in preserves which
failure it was and which fields it names). -/
def valErrStr : ValErr → String
  | .notDict => "Input should be a valid dictionary or instance of JudgeResponse"
  | .badFields fs =>
    toString fs.length ++ " validation error(s) for JudgeResponse - " ++
      joinComma fs ++ ": Input should be a valid integer"

/-- The five rating field names, declaration order. -/
def judgeFields : List String := ["clarity", "specificity", "relevance", "actionability", "approachability"]

/-- Does the candidate's binding for `name` fail `Optional[int]`
validation?  (A missing binding takes the default and cannot fail.) -/
def fieldBad (kvs : List (String × Json)) (name : String) : Bool :=
  match lookup? kvs name with
  | none => false
  | some v => (coerceOptInt v).isNone

/-- The validated value for field `name` (defaulting to `None`). -/
def fieldVal (kvs : List (String × Json)) (name : String) : Option Int :=
  match lookup? kvs name with
  | none => none
  | some v => (coerceOptInt v).getD none

/-- `JudgeResponse.model_validate(candidate)`. -/
def judgeValidate : Json → Except ValErr JudgeResponse
  | .jobj kvs =>
    match judgeFields.filter (fieldBad kvs) with
    | [] => .ok ⟨fieldVal kvs "clarity", fieldVal kvs "specificity",
        fieldVal kvs "relevance", fieldVal kvs "actionability",
        fieldVal kvs "approachability"⟩
    | bad => .error (.badFields bad)
  | _ => .error .notDict

/-- `judge_response.model_dump_json()`: compact JSON, fields in
declaration order. -/
def judgeDumpJson (j : JudgeResponse) : String :=
  lcurl ++ "\"clarity\":" ++ renderOptInt j.clarity ++
    ",\"specificity\":" ++ renderOptInt j.specificity ++
    ",\"relevance\":" ++ renderOptInt j.relevance ++
    ",\"actionability\":" ++ renderOptInt j.actionability ++
    ",\"approachability\":" ++ renderOptInt j.approachability ++ rcurl

/-! ## The bounded repair pass (anthropic_service.py lines 158-185) -/

/-- Is `sub` a prefix of `hay` (character lists)? -/
def isPrefixList : List Char → List Char → Bool
  | [], _ => true
  | _ :: _, [] => false
  | a :: as, b :: bs => a == b && isPrefixList as bs

/-- Python `sub in hay` substring test. -/
def hasSubstring : List Char → List Char → Bool
  | [], sub => sub.isEmpty
  | hay@(_ :: rest), sub => isPrefixList sub hay || hasSubstring rest sub

/-- One attempted match of the regex `score["\x27>]*(\d+)` anchored at
the start of `l`: literal `score`, any run of double-quote /
single-quote / `>` characters, then a non-empty (maximal) digit run. -/
def matchScoreAt (l : List Char) : Option Nat :=
  match l with
  | 's' :: 'c' :: 'o' :: 'r' :: 'e' :: rest =>
    let rest2 := rest.dropWhile
      (fun c => c == Char.ofNat 34 || c == Char.ofNat 39 || c == '>')
    let ds := rest2.takeWhile Char.isDigit
    if ds.isEmpty then none else digitsToNat 0 ds
  | _ => none

/-- `re.search(r'score["\x27>]*(\d+)', s)`: first position where the
pattern matches, scanning left to right. -/
def scoreSearch : List Char → Option Nat
  | [] => none
  | c :: rest =>
    match matchScoreAt (c :: rest) with
    | some n => some n
    | none => scoreSearch rest

/-- The per-field repair of the fix loop: a string field value
containing `<parameter` is replaced by a `{score, reason}` object built
from the regex-extracted score, or the neutral default score 3 when no
score is extractable; every other value is copied unchanged. -/
def fixField (v : Json) : Json :=
  match v with
  | .jstr s =>
    if hasSubstring s.toList "<parameter".toList then
      match scoreSearch s.toList with
      | some n =>
        .jobj [("score", .jint n),
               ("reason", .jstr ("Automatically extracted score " ++ toString n))]
      | none => .jobj [("score", .jint 3), ("reason", .jstr "Could not parse malformed input")]
    else v
  | _ => v

/-- The fix loop `for field_name, field_value in tool_args.items()`:
requires a dict (a non-dict raises `AttributeError` inside the inner
`try`, caught by its `except`). -/
def repairArgs : Json → Except PyExn Json
  | .jobj kvs => .ok (.jobj (kvs.map (fun kv => (kv.1, fixField kv.2))))
  | _ => .error ⟨"AttributeError: object has no attribute items"⟩

/-! ## json.loads

A fuel-structural recursive-descent parser for the JSON subset the
adapters exchange: null/true/false, integers, strings without escape
sequences, arrays, objects (floats and string escapes are not modeled;
no concrete input below uses them, and the universal theorems only need
totality).  Failure models the `json.JSONDecodeError` raised by
`json.loads`. -/

/-- Scan a JSON string body up to the closing quote (no escapes). -/
def scanString (acc : List Char) : List Char → Option (String × List Char)
  | [] => none
  | c :: rest =>
    if c == Char.ofNat 34 then some (String.mk acc.reverse, rest)
    else if c == Char.ofNat 92 then none
    else scanString (c :: acc) rest

/-- Parser task: a value, the items of an array after `[`, or the
members of an object after the opening brace. -/
inductive PTask where
  | val
  | arrItems
  | objItems

/-- The recursive-descent core; array/object results are wrapped in
`.jarr`/`.jobj`, and the consumer patterns for any other shape return
`none` (unreachable). -/
def parseJsonF : Nat → PTask → List Char → Option (Json × List Char)
  | 0, _, _ => none
  | fuel + 1, .val, cs0 =>
    match cs0.dropWhile Char.isWhitespace with
    | [] => none
    | 'n' :: 'u' :: 'l' :: 'l' :: rest => some (.null, rest)
    | 't' :: 'r' :: 'u' :: 'e' :: rest => some (.jbool true, rest)
    | 'f' :: 'a' :: 'l' :: 's' :: 'e' :: rest => some (.jbool false, rest)
    | '-' :: rest =>
      let ds := rest.takeWhile Char.isDigit
      if ds.isEmpty then none
      else (digitsToNat 0 ds).map
        (fun n => (.jint (-(n : Int)), rest.dropWhile Char.isDigit))
    | c :: rest =>
      if c == Char.ofNat 34 then
        (scanString [] rest).map (fun p => (.jstr p.1, p.2))
      else if c == Char.ofNat 123 then
        match rest.dropWhile Char.isWhitespace with
        | d :: rest2 =>
          if d == Char.ofNat 125 then some (.jobj [], rest2)
          else parseJsonF fuel .objItems (d :: rest2)
        | [] => none
      else if c == '[' then
        match rest.dropWhile Char.isWhitespace with
        | d :: rest2 =>
          if d == ']' then some (.jarr [], rest2)
          else parseJsonF fuel .arrItems (d :: rest2)
        | [] => none
      else if c.isDigit then
        let ds := (c :: rest).takeWhile Char.isDigit
        (digitsToNat 0 ds).map
          (fun n => (.jint (n : Int), (c :: rest).dropWhile Char.isDigit))
      else none
  | fuel + 1, .arrItems, cs0 =>
    match parseJsonF fuel .val cs0 with
    | none => none
    | some (v, rest) =>
      match rest.dropWhile Char.isWhitespace with
      | ',' :: rest2 =>
        match parseJsonF fuel .arrItems rest2 with
        | some (.jarr xs, rest3) => some (.jarr (v :: xs), rest3)
        | _ => none
      | ']' :: rest2 => some (.jarr [v], rest2)
      | _ => none
  | fuel + 1, .objItems, cs0 =>
    match cs0.dropWhile Char.isWhitespace with
    | c :: rest =>
      if c == Char.ofNat 34 then
        match scanString [] rest with
        | none => none
        | some (k, rest2) =>
          match rest2.dropWhile Char.isWhitespace with
          | ':' :: rest3 =>
            match parseJsonF fuel .val rest3 with
            | none => none
            | some (v, rest4) =>
              match rest4.dropWhile Char.isWhitespace with
              | ',' :: rest5 =>
                match parseJsonF fuel .objItems rest5 with
                | some (.jobj kvs, rest6) => some (.jobj ((k, v) :: kvs), rest6)
                | _ => none
              | d :: rest5 =>
                if d == Char.ofNat 125 then some (.jobj [(k, v)], rest5) else none
              | [] => none
          | _ => none
      else none
    | [] => none

/-- `json.loads(s)`: parse one value, allow surrounding whitespace,
reject trailing data.  The fuel `2 * length + 8` dominates the recursion
depth (every two nested task calls consume at least one character). -/
def jsonLoads (s : String) : Except PyExn Json :=
  match parseJsonF (2 * s.length + 8) .val s.toList with
  | some (v, rest) =>
    if (rest.dropWhile Char.isWhitespace).isEmpty then .ok v
    else .error ⟨"json.decoder.JSONDecodeError: Extra data"⟩
  | none => .error ⟨"json.decoder.JSONDecodeError: Expecting value"⟩

/-! ## model_dump_json rendering for oracle-validated models -/

mutual
/-- Compact JSON rendering, as `model_dump_json()` emits (string escapes
are not modeled; no claim depends on them). -/
def renderJson : Json → String
  | .null => "null"
  | .jbool b => if b then "true" else "false"
  | .jint n => toString n
  | .jstr s => "\"" ++ s ++ "\""
  | .jarr xs => "[" ++ renderjList xs ++ "]"
  | .jobj kvs => lcurl ++ renderjKVs kvs ++ rcurl

/-- Comma-joined array elements. -/
def renderjList : List Json → String
  | [] => ""
  | [x] => renderJson x
  | x :: y :: xs => renderJson x ++ "," ++ renderjList (y :: xs)

/-- Comma-joined object members. -/
def renderjKVs : List (String × Json) → String
  | [] => ""
  | [(k, v)] => "\"" ++ k ++ "\":" ++ renderJson v
  | (k, v) :: m :: kvs => "\"" ++ k ++ "\":" ++ renderJson v ++ "," ++ renderjKVs (m :: kvs)
end

/-- The dumped-object string for an oracle-validated
`BrainWorkoutResult`: `model_dump_json()` always renders an object. -/
def renderObjStr (fields : List (String × Json)) : String :=
  lcurl ++ renderjKVs fields ++ rcurl

/-! ## Provider adapters

Each adapter's `send_prompt` becomes a total function over an oracle:
the remote SDK call's outcome (`Except PyExn <response shape>`).  The
outgoing message shaping (`get_messages`) and the tool/schema payload of
`get_tool` only flow into the remote request, which the oracle already
abstracts, so only the tool NAME (compared against inbound calls) is
modeled.  `BrainWorkoutResult.model_validate` + `model_dump_json` is the
oracle parameter `BWRValidator` (on success, the dumped object's
members), since no claim depends on its nested field structure. -/

/-- Validation oracle for `BrainWorkoutResult`. -/
def BWRValidator := Json → Except ValErr (List (String × Json))

/-- The two actions every adapter's `get_tool` recognizes; any other
action string (or `None`) makes `get_tool` return a falsy value. -/
inductive AIAction where
  | workout | judge
deriving Repr, DecidableEq

/-- Which action an `action` argument selects, exactly as the
`get_tool` string comparisons do. -/
def knownAction : Option String → Option AIAction
  | some s =>
    if s = "generate_workout_result" then some .workout
    else if s = "judge_response" then some .judge
    else none
  | none => none

/-- The tool/function name each adapter registers for an action (same
names in openai/anthropic/gemini services). -/
def expectedToolName : AIAction → String
  | .workout => "save_brain_workout_result"
  | .judge => "judge_response"

/-- `str(e)` for a `ValidationError` of the named model. -/
def valErrStrFor (modelName : String) : ValErr → String
  | .notDict => "Input should be a valid dictionary or instance of " ++ modelName
  | .badFields fs =>
    toString fs.length ++ " validation error(s) for " ++ modelName ++ " - " ++
      joinComma fs ++ ": Input should be a valid integer"

/-- The markdown code-fence stripping shared by all three fallback
paths: strip; if it starts with three-backticks-json, delete every
occurrence of that opener then every triple backtick; else if it starts
with a triple backtick, delete every triple backtick; re-strip. -/
def stripFences (s : String) : String :=
  let t := s.trim
  if t.startsWith "```json" then ((t.replace "```json" "").replace "```" "").trim
  else if t.startsWith "```" then (t.replace "```" "").trim
  else t

/-! ### OpenAI adapter (openai_service.py) -/

/-- One item of `response.output`: a function call (name and a JSON-text
`arguments` string), a message (content items, `some` = has a `.text`
attribute), or another item kind without a `content` attribute. -/
inductive OpenAIOutput where
  | functionCall (name : String) (arguments : String)
  | message (contents : List (Option String))
  | other
deriving Repr

/-- The OpenAI `responses.create` result: output items plus
`usage.total_tokens` when usage is reported. -/
structure OpenAIResponse where
  output : List OpenAIOutput
  usage : Option Int
deriving Repr

/-- Envelope constructor used by every OpenAI branch. -/
def openAIResp (content model : String) (tok : Option Int) (err : Option String) : AIResponse :=
  { provider := "OpenAI", content := content, model := model,
    tokens_used := tok, error := err }

/-- SDK `str(output_item)` rendering (library repr, abbreviated). -/
def reprOutputItem : OpenAIOutput → String
  | .functionCall nm args => "ResponseFunctionToolCall(name=" ++ nm ++ ", arguments=" ++ args ++ ")"
  | .message _ => "ResponseOutputMessage(...)"
  | .other => "ResponseOutputItem(...)"

/-- Concatenate the `.text` of content items that have one. -/
def concatTexts : List (Option String) → String
  | [] => ""
  | some t :: rest => t ++ concatTexts rest
  | none :: rest => concatTexts rest

/-- `OpenAIService.validate_response` (lines 87-126): `json.loads` runs
before the inner `try`, so a parse failure propagates (models the raise);
validation failures are caught and become error envelopes.  Note the
tool call's NAME is never inspected here. -/
def openAIValidateResponse (bwr : BWRValidator) (arguments : String)
    (act : AIAction) (model : String) (tokens : Option Int) : Except PyExn AIResponse :=
  match jsonLoads arguments with
  | .error e => .error e
  | .ok toolArgs =>
    match act with
    | .workout =>
      match bwr toolArgs with
      | .ok fields => .ok (openAIResp (renderObjStr fields) model (normTokens tokens) none)
      | .error e => .ok (openAIResp "" model none (some (valErrStrFor "BrainWorkoutResult" e)))
    | .judge =>
      match judgeValidate toolArgs with
      | .ok jr => .ok (openAIResp (judgeDumpJson jr) model (normTokens tokens) none)
      | .error e => .ok (openAIResp "" model none (some (valErrStr e)))

/-- The `try` body of `OpenAIService.send_prompt` (lines 139-211): tool
lookup, remote call, first-output-item dispatch (a `function_call` item
is validated WITHOUT checking its name), plain-text fallback with fence
stripping, and the residual did-not-call error. -/
def openAITryBody (bwr : BWRValidator) (model : String) (action : Option String)
    (remote : Except PyExn OpenAIResponse) : Except PyExn AIResponse :=
  match knownAction action with
  | none => .ok (openAIResp "" model none (some "Tool not found"))
  | some act =>
    match remote with
    | .error e => .error e
    | .ok response =>
      let tokens := response.usage
      match response.output with
      | [] => .ok (openAIResp "" model tokens (some "LLM returned an empty output."))
      | item :: _ =>
        match item with
        | .functionCall _nm args => openAIValidateResponse bwr args act model tokens
        | .message contents =>
          if contents.isEmpty then
            .ok (openAIResp "" model tokens
              (some ("LLM did not call the required tool. Response: " ++ reprOutputItem item)))
          else
            let contentText := concatTexts contents
            if contentText.trim = "" then
              .ok (openAIResp "" model tokens
                (some ("LLM did not call the required tool. Response: " ++ reprOutputItem item)))
            else
              match jsonLoads (stripFences contentText) with
              | .error e => .error e
              | .ok parsed =>
                match act with
                | .workout =>
                  match bwr parsed with
                  | .ok fields => .ok (openAIResp (renderObjStr fields) model (normTokens tokens) none)
                  | .error e => .error ⟨valErrStrFor "BrainWorkoutResult" e⟩
                | .judge =>
                  match judgeValidate parsed with
                  | .ok jr => .ok (openAIResp (judgeDumpJson jr) model (normTokens tokens) none)
                  | .error e => .error ⟨valErrStr e⟩
        | .other =>
          .ok (openAIResp "" model tokens
            (some ("LLM did not call the required tool. Response: " ++ reprOutputItem item)))

/-- `OpenAIService.send_prompt` (lines 129-219): client guard, then the
`try` body with `except Exception as e` converting any raise into an
error envelope. -/
def openAISendPrompt (clientInit : Bool) (bwr : BWRValidator)
    (_messages : List PromptMessage) (model : String) (action : Option String)
    (remote : Except PyExn OpenAIResponse) : AIResponse :=
  if !clientInit then
    openAIResp "" model none (some "OpenAI client not initialized (missing API key)")
  else
    match openAITryBody bwr model action remote with
    | .ok r => r
    | .error e => openAIResp "" model none (some e.msg)

/-! ### Anthropic adapter (anthropic_service.py) -/

/-- One block of `response.content`: a `tool_use` block (name, `input`
dict) or a text block (the only kinds with/without a `.text`
attribute that the loops distinguish). -/
inductive AnthropicContent where
  | toolUse (name : String) (input : Json)
  | textBlock (text : String)
deriving Repr

/-- The `messages.create` result: content blocks plus
`(input_tokens, output_tokens)` when usage is reported. -/
structure AnthropicResponse where
  content : List AnthropicContent
  usage : Option (Int × Int)
deriving Repr

/-- Envelope constructor used by every Anthropic branch. -/
def anthResp (content model : String) (tok : Option Int) (err : Option String) : AIResponse :=
  { provider := "Anthropic", content := content, model := model,
    tokens_used := tok, error := err }

/-- SDK `str(response.content)` rendering (library repr, abbreviated;
only ever embedded into an error message). -/
def reprAnthContent (_ : List AnthropicContent) : String := "[ContentBlock(...)]"

/-- The `for content_item in response.content` loop: the first
`tool_use` block decides the outcome. -/
def firstToolUse : List AnthropicContent → Option (String × Json)
  | [] => none
  | .toolUse nm inp :: _ => some (nm, inp)
  | .textBlock _ :: rest => firstToolUse rest

/-- Concatenate the `.text` of text blocks. -/
def concatAnthTexts : List AnthropicContent → String
  | [] => ""
  | .textBlock t :: rest => t ++ concatAnthTexts rest
  | .toolUse _ _ :: rest => concatAnthTexts rest

/-- `AnthropicService.validate_response` (lines 119-193).  The judge
branch embeds the bounded repair pass: on a strict failure, run the fix
loop and re-validate; if the fix loop itself raises (non-dict input) or
re-validation fails, the envelope's error combines BOTH the original
error and the fix failure, via
`f"Validation failed: {e}. Fix attempt failed: {fix_error}"`. -/
def anthropicValidateResponse (bwr : BWRValidator) (input : Json)
    (act : AIAction) (model : String) (tokens : Option Int) : AIResponse :=
  match act with
  | .workout =>
    match bwr input with
    | .ok fields => anthResp (renderObjStr fields) model (normTokens tokens) none
    | .error e => anthResp "" model none (some (valErrStrFor "BrainWorkoutResult" e))
  | .judge =>
    match judgeValidate input with
    | .ok jr => anthResp (judgeDumpJson jr) model (normTokens tokens) none
    | .error e =>
      match repairArgs input with
      | .error fixExn =>
        anthResp "" model none
          (some ("Validation failed: " ++ valErrStr e ++ ". Fix attempt failed: " ++ fixExn.msg))
      | .ok fixed =>
        match judgeValidate fixed with
        | .ok jr => anthResp (judgeDumpJson jr) model (normTokens tokens) none
        | .error fe =>
          anthResp "" model none
            (some ("Validation failed: " ++ valErrStr e ++ ". Fix attempt failed: " ++ valErrStr fe))

/-- The `try` body of `AnthropicService.send_prompt` (lines 205-293):
tool lookup, remote call, token summing, empty-content guard, the
first-`tool_use` dispatch (name mismatch is the unexpected-tool error),
plain-text fallback, residual did-not-call error. -/
def anthropicTryBody (bwr : BWRValidator) (model : String) (action : Option String)
    (remote : Except PyExn AnthropicResponse) : Except PyExn AIResponse :=
  match knownAction action with
  | none => .ok (anthResp "" model none (some "Tool not found"))
  | some act =>
    match remote with
    | .error e => .error e
    | .ok response =>
      let tokens := response.usage.map (fun p => p.1 + p.2)
      if response.content.isEmpty then
        .ok (anthResp "" model tokens (some "LLM returned an empty response."))
      else
        match firstToolUse response.content with
        | some (nm, inp) =>
          if nm = expectedToolName act then
            .ok (anthropicValidateResponse bwr inp act model tokens)
          else
            .ok (anthResp "" model tokens
              (some ("LLM responded with an unexpected tool: " ++ nm)))
        | none =>
          let contentText := concatAnthTexts response.content
          if contentText.trim = "" then
            .ok (anthResp "" model tokens
              (some ("LLM did not call the required tool. Response: " ++
                reprAnthContent response.content)))
          else
            match jsonLoads (stripFences contentText) with
            | .error e => .error e
            | .ok parsed =>
              match act with
              | .workout =>
                match bwr parsed with
                | .ok fields => .ok (anthResp (renderObjStr fields) model (normTokens tokens) none)
                | .error e => .error ⟨valErrStrFor "BrainWorkoutResult" e⟩
              | .judge =>
                match judgeValidate parsed with
                | .ok jr => .ok (anthResp (judgeDumpJson jr) model (normTokens tokens) none)
                | .error e => .error ⟨valErrStr e⟩

/-- `AnthropicService.send_prompt` (lines 195-301): client guard (the
Anthropic `_setup_client` always sets a client), then the `try` body
with `except Exception as e`. -/
def anthropicSendPrompt (clientInit : Bool) (bwr : BWRValidator)
    (_messages : List PromptMessage) (model : String) (action : Option String)
    (remote : Except PyExn AnthropicResponse) : AIResponse :=
  if !clientInit then
    anthResp "" model none (some "Anthropic client not initialized (missing API key)")
  else
    match anthropicTryBody bwr model action remote with
    | .ok r => r
    | .error e => anthResp "" model none (some e.msg)

/-! ### Gemini adapter (gemini_service.py) -/

/-- One part of `candidates[0].content.parts`: an optional
`function_call` (name, `args` dict — already parsed by the SDK) and an
optional `.text` (the genai `Part` always has the attribute; its value
may be `None`). -/
structure GeminiPart where
  function_call : Option (String × Json)
  text : Option String
deriving Repr

/-- One candidate (its content parts). -/
structure GeminiCandidate where
  parts : List GeminiPart
deriving Repr

/-- The `generate_content` result: candidates plus
`usage_metadata.total_token_count` when present. -/
structure GeminiResponse where
  candidates : List GeminiCandidate
  usage : Option Int
deriving Repr

/-- Envelope constructor used by every Gemini branch. -/
def gemResp (content model : String) (tok : Option Int) (err : Option String) : AIResponse :=
  { provider := "Gemini", content := content, model := model,
    tokens_used := tok, error := err }

/-- SDK `str(parts)` rendering (library repr, abbreviated). -/
def reprGeminiParts (_ : List GeminiPart) : String := "[Part(...)]"

/-- The `for part in ...parts` loop: the first part carrying a truthy
`function_call` decides the outcome. -/
def firstFunctionCall : List GeminiPart → Option (String × Json)
  | [] => none
  | p :: rest =>
    match p.function_call with
    | some fc => some fc
    | none => firstFunctionCall rest

/-- `content_text += part.text` over all parts (every genai `Part` has
the attribute): a `None` text raises `TypeError`, caught by the outer
`except`. -/
def concatGeminiTexts : List GeminiPart → Except PyExn String
  | [] => .ok ""
  | p :: rest =>
    match p.text with
    | none => .error ⟨"TypeError: can only concatenate str (not NoneType) to str"⟩
    | some t => (concatGeminiTexts rest).map (fun s => t ++ s)

/-- `GeminiService.validate_response` (lines 197-241): no repair pass;
failures render as `f"Validation failed: {e}"`. -/
def geminiValidateResponse (bwr : BWRValidator) (args : Json)
    (act : AIAction) (model : String) (tokens : Option Int) : AIResponse :=
  match act with
  | .workout =>
    match bwr args with
    | .ok fields => gemResp (renderObjStr fields) model (normTokens tokens) none
    | .error e =>
      gemResp "" model none (some ("Validation failed: " ++ valErrStrFor "BrainWorkoutResult" e))
  | .judge =>
    match judgeValidate args with
    | .ok jr => gemResp (judgeDumpJson jr) model (normTokens tokens) none
    | .error e => gemResp "" model none (some ("Validation failed: " ++ valErrStr e))

/-- The `try` body of `GeminiService.send_prompt` (lines 253-359). -/
def geminiTryBody (bwr : BWRValidator) (model : String) (action : Option String)
    (remote : Except PyExn GeminiResponse) : Except PyExn AIResponse :=
  match knownAction action with
  | none => .ok (gemResp "" model none (some "Tool not found"))
  | some act =>
    match remote with
    | .error e => .error e
    | .ok response =>
      let tokens := response.usage
      match response.candidates with
      | [] => .ok (gemResp "" model tokens (some "LLM returned an empty response."))
      | cand :: _ =>
        if cand.parts.isEmpty then
          .ok (gemResp "" model tokens (some "LLM returned an empty response."))
        else
          match firstFunctionCall cand.parts with
          | some (nm, args) =>
            if nm = expectedToolName act then
              .ok (geminiValidateResponse bwr args act model tokens)
            else
              .ok (gemResp "" model tokens
                (some ("LLM responded with an unexpected function: " ++ nm)))
          | none =>
            match concatGeminiTexts cand.parts with
            | .error e => .error e
            | .ok contentText =>
              if contentText.trim = "" then
                .ok (gemResp "" model tokens
                  (some ("LLM did not call the required function. Response: " ++
                    reprGeminiParts cand.parts)))
              else
                match jsonLoads (stripFences contentText) with
                | .error e => .error e
                | .ok parsed =>
                  match act with
                  | .workout =>
                    match bwr parsed with
                    | .ok fields => .ok (gemResp (renderObjStr fields) model (normTokens tokens) none)
                    | .error e => .error ⟨valErrStrFor "BrainWorkoutResult" e⟩
                  | .judge =>
                    match judgeValidate parsed with
                    | .ok jr => .ok (gemResp (judgeDumpJson jr) model (normTokens tokens) none)
                    | .error e => .error ⟨valErrStr e⟩

/-- `GeminiService.send_prompt` (lines 243-367): client guard, then the
`try` body with `except Exception as e`. -/
def geminiSendPrompt (clientInit : Bool) (bwr : BWRValidator)
    (_messages : List PromptMessage) (model : String) (action : Option String)
    (remote : Except PyExn GeminiResponse) : AIResponse :=
  if !clientInit then
    gemResp "" model none (some "Gemini client not initialized (missing API key)")
  else
    match geminiTryBody bwr model action remote with
    | .ok r => r
    | .error e => gemResp "" model none (some e.msg)

/-! ## Dispatch factory (services/service_factory.py) -/

/-- The oracle environment for one fan-out: the
`BrainWorkoutResult` validator and each provider's remote outcome (each
provider is invoked at most once per `send_to_all`). -/
structure World where
  bwr : BWRValidator
  openaiRemote : Except PyExn OpenAIResponse
  anthropicRemote : Except PyExn AnthropicResponse
  geminiRemote : Except PyExn GeminiResponse

/-- `AIServiceFactory._setup_services` (lines 28-52): probe exactly
three environment keys, registering (in insertion order) each provider
whose key is truthy.  `PERPLEXITY_API_KEY` is never probed and
`Provider.PERPLEXITY` is never registered. -/
def setup_services (getenv : String → Option String) : List Provider :=
  (if optTruthy (getenv "OPENAI_API_KEY") then [Provider.openai] else []) ++
    (if optTruthy (getenv "ANTHROPIC_API_KEY") then [Provider.anthropic] else []) ++
      (if optTruthy (getenv "GEMINI_API_KEY") then [Provider.gemini] else [])

/-- `get_available_services` (lines 63-67): the registered keys, in
insertion order. -/
def get_available_services (services : List Provider) : List Provider := services

/-- The `default_models` dict of `send_to_provider` (lines 83-87): no
entry for Perplexity. -/
def default_models : Provider → Option String
  | .openai => some "gpt-4.1"
  | .anthropic => some "claude-sonnet-4-20250514"
  | .gemini => some "gemini-2.5-pro"
  | .perplexity => none

/-- `model or default_models[provider]`: a falsy model argument falls
back to the default; a missing default raises `KeyError`. -/
def resolveModel (model : Option String) (p : Provider) : Except PyExn String :=
  if optTruthy model then .ok (model.getD "")
  else
    match default_models p with
    | some d => .ok d
    | none => .error ⟨"KeyError: <Provider.PERPLEXITY>"⟩

/-- `AIServiceFactory.send_to_provider` (lines 69-89).  A registered
service was constructed with a truthy key, so its client is initialized
(OpenAI/Gemini guard `_setup_client` on the key; Anthropic sets it
unconditionally): the dispatch passes `clientInit := true`.  Registering
Perplexity is impossible via `_setup_services`; were it reached, the
3-argument `send_prompt` call would raise `TypeError`
(`PerplexityService.send_prompt` takes no action argument). -/
def send_to_provider (w : World) (services : List Provider) (p : Provider)
    (messages : List PromptMessage) (model : Option String) (action : Option String) :
    Except PyExn AIResponse :=
  if p ∈ services then
    match resolveModel model p with
    | .error e => .error e
    | .ok m =>
      match p with
      | .openai => .ok (openAISendPrompt true w.bwr messages m action w.openaiRemote)
      | .anthropic => .ok (anthropicSendPrompt true w.bwr messages m action w.anthropicRemote)
      | .gemini => .ok (geminiSendPrompt true w.bwr messages m action w.geminiRemote)
      | .perplexity =>
        .error ⟨"TypeError: send_prompt() takes from 2 to 3 positional arguments but 4 were given"⟩
  else
    .ok { provider := p.value, content := "", model := model.getD "",
          error := some ("Service not available for provider: " ++ p.value) }

/-- `models.get(provider) if models else None`. -/
def modelsGet (models : Option (Provider → Option String)) (p : Provider) : Option String :=
  match models with
  | some f => f p
  | none => none

/-- The synthetic zero-providers envelope of `send_to_all`
(lines 95-100). -/
def noServicesResp : AIResponse :=
  { provider := "None", content := "", model := "",
    error := some "No services are available. Please set up API keys." }

/-- `AIServiceFactory.send_to_all` (lines 91-108): with no services,
a single synthetic error envelope; otherwise one `send_to_provider`
task per registered provider in registration order (`asyncio.gather`
preserves task order), with no `action` argument (so `None` is
forwarded). -/
def send_to_all (w : World) (services : List Provider)
    (messages : List PromptMessage) (models : Option (Provider → Option String)) :
    Except PyExn (List AIResponse) :=
  if services.isEmpty then .ok [noServicesResp]
  else services.mapM (fun p => send_to_provider w services p messages (modelsGet models p) none)

/-! ## Derived notions used by the claim statements -/

/-- The provider brand string each adapter stamps on its envelopes. -/
def brandStr : Provider → String
  | .openai => "OpenAI"
  | .anthropic => "Anthropic"
  | .gemini => "Gemini"
  | .perplexity => "Perplexity"

/-- Does a schema dict still carry a `$defs` table?  A descriptor
without one is "already flat" for `get_flattened_schema`. -/
def hasDefsKey : Json → Bool
  | .jobj kvs => hasKey kvs "$defs"
  | _ => false

/-- Envelope exclusivity: non-empty content with no error, or empty
content with a populated (`is not None`) error — the success/failure
discrimination callers rely on. -/
def envExclusive (r : AIResponse) : Prop :=
  (r.content ≠ "" ∧ r.error = none) ∨ (r.content = "" ∧ r.error.isSome)

/-! ## C4: provider registration at factory construction -/

/-- An environment in which all four providers' credentials are
present. -/
def allKeysEnv : String → Option String := fun _ => some "k"

/-! ## C2 / C1: fan-out behavior of the factory -/

/-- The model string `send_to_provider` actually passes on: the caller's
model if truthy, else the provider's hardcoded default. -/
def resolvedModelD (model : Option String) (p : Provider) : String :=
  if optTruthy model then model.getD "" else (default_models p).getD ""

/-- The envelope every adapter returns when `send_prompt` receives an
action for which `get_tool` has no tool: empty content, no tokens,
error `"Tool not found"`. -/
def toolNotFoundResp (p : Provider) (m : String) : AIResponse :=
  { provider := brandStr p, content := "", model := m,
    tokens_used := none, error := some "Tool not found" }

/-- A concrete environment with only the OpenAI credential present. -/
def openaiOnlyEnv : String → Option String :=
  fun s => if s = "OPENAI_API_KEY" then some "k" else none

/-- A concrete oracle world (failing validator, failing transports). -/
def probeWorld : World :=
  { bwr := fun _ => .error .notDict,
    openaiRemote := .error ⟨"connection error"⟩,
    anthropicRemote := .error ⟨"connection error"⟩,
    geminiRemote := .error ⟨"connection error"⟩ }

/-! ## C3: mismatched tool/function names -/

/-- An OpenAI response whose only output item is a function call with a
wrong name but well-formed (empty-object) arguments. -/
def wrongNameResponse : OpenAIResponse :=
  { output := [.functionCall "totally_wrong_tool" "\x7b\x7d"], usage := some 10 }

/-- A concrete Anthropic response invoking a wrong tool name. -/
def anthWrongToolResp : AnthropicResponse :=
  { content := [.toolUse "wrong_tool" (.jobj [])], usage := some (1, 2) }

/-! ## C6: the repair pass versus the JudgeResponse model -/

/-- A judge tool-call payload whose `clarity` field arrived as an
XML-ish string embedding `score...4` (the malformation class the repair
pass targets). -/
def malformedScoreArgs : Json :=
  .jobj [("clarity", .jstr "<parameter name=\"score\">4</parameter>"),
         ("specificity", .jint 5), ("relevance", .jint 4),
         ("actionability", .jint 3), ("approachability", .jint 5)]

/-- What the fix loop produces for `malformedScoreArgs`. -/
def repairedScoreArgs : Json :=
  .jobj [("clarity", .jobj [("score", .jint 4),
           ("reason", .jstr "Automatically extracted score 4")]),
         ("specificity", .jint 5), ("relevance", .jint 4),
         ("actionability", .jint 3), ("approachability", .jint 5)]

/-! ## C9: the error reported when repair also fails -/

/-- A judge payload whose malformed field contains no extractable
integer, so the repair path takes the neutral-default branch and
re-validation still fails. -/
def unparsableScoreArgs : Json :=
  .jobj [("clarity", .jstr "<parameter name=clarity>bad</parameter>")]

/-! ## C8: flattening — cycle cutting is global, not per-path -/

/-- A schema whose `$defs` entry `X` is referenced at two SIBLING
positions (`a` and `b`), and additionally at a position the resolver
never visits (inside property `c` under the non-schema key `extra`). -/
def sibDefsSchema : Json :=
  .jobj [("$defs", .jobj [("X", .jobj [("type", .jstr "string")])]),
         ("properties", .jobj
           [("a", .jobj [("$ref", .jstr "#/$defs/X")]),
            ("b", .jobj [("$ref", .jstr "#/$defs/X")]),
            ("c", .jobj [("extra", .jobj [("$ref", .jstr "#/$defs/X")])])])]

/-- The flattener's actual output for `sibDefsSchema`. -/
def sibFlattened : Json :=
  .jobj [("properties", .jobj
           [("a", .jobj [("type", .jstr "string")]),
            ("b", .jobj [("type", .jstr "object")]),
            ("c", .jobj [("extra", .jobj [("$ref", .jstr "#/$defs/X")])])])]

/-! ### Termination machinery for the flattener

`runResolve` is fuel-indexed; "the recursion terminates" is the
statement that some fuel always suffices.  The proof is a strong
induction on the scalar measure `muA`: the number of not-yet-resolved
reference strings (those present in the current node or in `$defs`),
weighted by more than the total weight of all definitions, plus a
length-independent structural weight of the current node.  Every
recursive call strictly decreases the measure: expanding a reference
retires one reference string forever (the global `resolved_refs` only
grows) at a bounded weight cost, and every other step shrinks the
structural weight. -/

mutual
/-- All `$ref` string values occurring anywhere in a value. -/
def refsJ : Json → List String
  | .null => []
  | .jbool _ => []
  | .jint _ => []
  | .jstr _ => []
  | .jarr xs => refsL xs
  | .jobj kvs => refsKVs kvs

/-- All `$ref` string values in a list of values. -/
def refsL : List Json → List String
  | [] => []
  | x :: xs => refsJ x ++ refsL xs

/-- All `$ref` string values in object members: a member
`("$ref", .jstr s)` contributes `s` itself, and every member value is
searched recursively. -/
def refsKVs : List (String × Json) → List String
  | [] => []
  | (k, v) :: rest =>
    (if k = "$ref" then
      (match v with
       | .jstr s => [s]
       | _ => []) else []) ++ refsJ v ++ refsKVs rest
end

mutual
/-- Length-independent structural weight: every leaf weighs 1, every
object member adds 1 plus its value's weight (so replacing one member by
another of no larger weight never increases the total — in particular
the `{"type": "object"}` marker substituted for a `{"$ref": s}` member
does not increase it). -/
def wJ : Json → Nat
  | .null => 1
  | .jbool _ => 1
  | .jint _ => 1
  | .jstr _ => 1
  | .jarr xs => 1 + wL xs
  | .jobj kvs => 1 + wKVs kvs

/-- Weight of array elements. -/
def wL : List Json → Nat
  | [] => 0
  | x :: xs => wJ x + wL xs

/-- Weight of object members. -/
def wKVs : List (String × Json) → Nat
  | [] => 0
  | (_, v) :: rest => 1 + wJ v + wKVs rest
end

/-- All `$ref` strings in the values of the `$defs` table. -/
def refsDefs : List (String × Json) → List String
  | [] => []
  | (_, v) :: rest => refsJ v ++ refsDefs rest

/-- The unretired reference strings: those of the current node or of any
definition, minus the already-resolved ones. -/
def Vset (defs : List (String × Json)) (resolved rl : List String) :
    Finset String :=
  (rl ++ refsDefs defs).toFinset \ resolved.toFinset

/-- The termination measure. -/
def muA (defs : List (String × Json)) (resolved rl : List String) (w : Nat) : Nat :=
  (Vset defs resolved rl).card * (wKVs defs + 1) + w

/-- The JSON payload a task works on (`props` works on the wrapped
object). -/
def taskJson : RTask → Json
  | .res j => j
  | .aft j => j
  | .props kvs => .jobj kvs

/-- The task measure: the state measure `muA`, plus one for a full
`.res` call (which may delegate to `.aft` on the same state). -/
def muT (defs : List (String × Json)) (resolved : List String) (t : RTask) : Nat :=
  muA defs resolved (refsJ (taskJson t)) (wJ (taskJson t)) +
    (match t with
     | .res _ => 1
     | _ => 0)

/-- Postcondition of one resolver step, composable under sequencing:
`resolved` grows by a duplicate-free block `pre` of reference strings
drawn from the input's (or the definitions') references and not already
resolved; the output's references stay within the input's plus the
definitions'; and the output weight grows by at most the whole-`$defs`
weight per newly resolved reference. -/
def RunPost (defs : List (String × Json)) (resolved rl : List String)
    (w : Nat) (out : List String × Json) : Prop :=
  ∃ pre, out.1 = pre ++ resolved ∧ pre.Nodup ∧
    (∀ x ∈ pre, (x ∈ rl ∨ x ∈ refsDefs defs) ∧ x ∉ resolved) ∧
    (∀ x ∈ refsJ out.2, x ∈ rl ∨ x ∈ refsDefs defs) ∧
    wJ out.2 ≤ w + pre.length * wKVs defs

/-- The induction hypothesis shape of the fuel-adequacy proof: at fuel
`n` every task whose measure is below `n` runs to completion, satisfies
the step postcondition, and returns its input or an object. -/
def IHyp (defs : List (String × Json)) (n : Nat) : Prop :=
  ∀ (resolved : List String) (t : RTask), muT defs resolved t < n →
    ∃ out, runResolve defs n resolved t = some out ∧
      RunPost defs resolved (refsJ (taskJson t)) (wJ (taskJson t)) out ∧
      (out.2 = taskJson t ∨ ∃ kvs2, out.2 = Json.jobj kvs2)

/-- A family of schemas, parametric in the payload string `t`, whose
single definition `X` is referenced at two sibling positions. -/
def sibSchemaP (t : String) : Json :=
  .jobj [("$defs", .jobj [("X", .jobj [("type", .jstr t)])]),
         ("properties", .jobj
           [("a", .jobj [("$ref", .jstr "#/$defs/X")]),
            ("b", .jobj [("$ref", .jstr "#/$defs/X")])])]

/-- What the flattener actually produces for `sibSchemaP t`: the first
sibling inlined, the second replaced by the generic object marker. -/
def sibFlattenedP (t : String) : Json :=
  .jobj [("properties", .jobj
           [("a", .jobj [("type", .jstr t)]),
            ("b", .jobj [("type", .jstr "object")])])]

/-! ## C10: flattening is the identity on already-flat descriptors -/

/-- C10: applying `get_flattened_schema` to an already-flat descriptor —
one with no remaining `$defs` table of internal reference definitions —
returns that descriptor unchanged (so flattening is idempotent on its
own output, which never carries `$defs`). -/
theorem claim_C10 (fuel : Nat) (schema : Json) (h : hasDefsKey schema = false) :
    get_flattened_schema fuel schema = some schema := by
  cases schema with
  | jobj kvs =>
    have hnone : lookup? kvs "$defs" = none := by
      simpa [hasDefsKey, hasKey, Option.isSome_iff_exists] using h
    simp [get_flattened_schema, hnone]
  | null => rfl
  | jbool b => rfl
  | jint n => rfl
  | jstr s => rfl
  | jarr xs => rfl

/-- Witness: a concrete flat descriptor flattens to itself. -/
theorem claim_C10_witness :
    hasDefsKey (Json.jobj [("type", Json.jstr "object")]) = false ∧
      get_flattened_schema 3 (Json.jobj [("type", Json.jstr "object")]) =
        some (Json.jobj [("type", Json.jstr "object")]) :=
  ⟨rfl, claim_C10 3 (Json.jobj [("type", Json.jstr "object")]) rfl⟩

/-- C4 counterexample: with every credential present — including
`PERPLEXITY_API_KEY` — the factory still never registers Perplexity:
`_setup_services` probes only the OpenAI/Anthropic/Gemini keys, so
`get_available_services()` omits Perplexity despite its present
credential, contradicting the claim's "for every provider the system
supports (OpenAI, Anthropic, Gemini, Perplexity)". -/
theorem claim_C4_counterexample :
    optTruthy (allKeysEnv "PERPLEXITY_API_KEY") = true ∧
      Provider.perplexity ∉ get_available_services (setup_services allKeysEnv) := by
  constructor
  · rfl
  · decide

/-- C4 (amended): for each of OpenAI, Anthropic, and Gemini, the
factory registers the provider exactly when its credential is truthy,
with exactly one entry (the registration list has no duplicates), and
`get_available_services()` returns exactly the registered providers;
Perplexity is never registered, regardless of its credential. -/
theorem claim_C4 (getenv : String → Option String) :
    (Provider.openai ∈ setup_services getenv ↔ optTruthy (getenv "OPENAI_API_KEY") = true) ∧
    (Provider.anthropic ∈ setup_services getenv ↔ optTruthy (getenv "ANTHROPIC_API_KEY") = true) ∧
    (Provider.gemini ∈ setup_services getenv ↔ optTruthy (getenv "GEMINI_API_KEY") = true) ∧
    Provider.perplexity ∉ setup_services getenv ∧
    (setup_services getenv).Nodup ∧
    get_available_services (setup_services getenv) = setup_services getenv := by
  unfold setup_services get_available_services
  rcases h1 : optTruthy (getenv "OPENAI_API_KEY") <;>
    rcases h2 : optTruthy (getenv "ANTHROPIC_API_KEY") <;>
      rcases h3 : optTruthy (getenv "GEMINI_API_KEY") <;>
        simp

theorem mem_setup_not_perplexity {g : String → Option String} {p : Provider}
    (hp : p ∈ setup_services g) : p ≠ Provider.perplexity := by
  intro h
  subst h
  unfold setup_services at hp
  rcases optTruthy (g "OPENAI_API_KEY") <;>
    rcases optTruthy (g "ANTHROPIC_API_KEY") <;>
      rcases optTruthy (g "GEMINI_API_KEY") <;> simp_all

theorem resolveModel_ok (model : Option String) (p : Provider)
    (hp : p ≠ Provider.perplexity) :
    resolveModel model p = .ok (resolvedModelD model p) := by
  cases p <;> simp_all [resolveModel, resolvedModelD, default_models] <;>
    split <;> rfl

theorem send_to_provider_noAction (w : World) (services : List Provider)
    (p : Provider) (msgs : List PromptMessage) (model : Option String)
    (hp : p ≠ Provider.perplexity) (hmem : p ∈ services) :
    send_to_provider w services p msgs model none =
      .ok (toolNotFoundResp p (resolvedModelD model p)) := by
  unfold send_to_provider
  rw [if_pos hmem, resolveModel_ok model p hp]
  cases p with
  | openai => rfl
  | anthropic => rfl
  | gemini => rfl
  | perplexity => exact absurd rfl hp

theorem mapM_loop_ok {α : Type} (f : α → Except PyExn AIResponse)
    (g : α → AIResponse) (l : List α) (acc : List AIResponse)
    (h : ∀ a ∈ l, f a = .ok (g a)) :
    List.mapM.loop f l acc = .ok (acc.reverse ++ l.map g) := by
  induction l generalizing acc with
  | nil => simp [List.mapM.loop]; rfl
  | cons a rest ih =>
    have ha : f a = .ok (g a) := h a (by simp)
    simp only [List.mapM.loop, ha]
    rw [show ((Except.ok (g a) : Except PyExn AIResponse) >>= fun x =>
        List.mapM.loop f rest (x :: acc)) = List.mapM.loop f rest (g a :: acc) from rfl]
    rw [ih (g a :: acc) (fun b hb => h b (by simp [hb]))]
    simp

theorem mapM_ok_of {α : Type} (l : List α) (f : α → Except PyExn AIResponse)
    (g : α → AIResponse) (h : ∀ a ∈ l, f a = .ok (g a)) :
    l.mapM f = .ok (l.map g) := by
  have := mapM_loop_ok f g l [] h
  simpa [List.mapM] using this

/-- C2: `send_to_all` builds its tasks without an `action` argument, and
`send_to_provider` defaults `action` to `None` and forwards it verbatim
to the adapter's `send_prompt`; there `get_tool(None)` is falsy, so each
of the OpenAI, Anthropic and Gemini adapters short-circuits to an
envelope with empty content and error `"Tool not found"`.  The result is
the same for EVERY remote-oracle world `w`, i.e. the remote endpoint is
never consulted. -/
theorem claim_C2 (w : World) (g : String → Option String)
    (msgs : List PromptMessage) (models : Option (Provider → Option String))
    (model : Option String) :
    (∀ p ∈ setup_services g,
      send_to_provider w (setup_services g) p msgs model none =
        .ok (toolNotFoundResp p (resolvedModelD model p))) ∧
    (setup_services g ≠ [] →
      send_to_all w (setup_services g) msgs models =
        .ok ((setup_services g).map fun p =>
          toolNotFoundResp p (resolvedModelD (modelsGet models p) p))) := by
  constructor
  · intro p hmem
    exact send_to_provider_noAction w _ p msgs model (mem_setup_not_perplexity hmem) hmem
  · intro hne
    unfold send_to_all
    rw [if_neg (by simpa [List.isEmpty_iff] using hne)]
    exact mapM_ok_of _ _ _ (fun p hmem =>
      send_to_provider_noAction w _ p msgs (modelsGet models p)
        (mem_setup_not_perplexity hmem) hmem)

theorem claim_C2_witness :
    Provider.openai ∈ setup_services openaiOnlyEnv ∧
      send_to_provider probeWorld (setup_services openaiOnlyEnv) Provider.openai
          [] none none =
        .ok (toolNotFoundResp Provider.openai "gpt-4.1") := by
  refine ⟨by decide, ?_⟩
  have h := (claim_C2 probeWorld openaiOnlyEnv [] none none).1
    Provider.openai (by decide)
  simpa using h

/-- C1: `send_to_all` over the factory-constructed registration list
returns exactly one envelope per registered provider, in registration
order (the i-th envelope carries the i-th provider's brand), for every
oracle world — and exactly one synthetic error envelope when no provider
is registered.  (Every fan-out task omits `action`, so the per-provider
envelopes are the deterministic `"Tool not found"` ones; in particular
the count never depends on individual success or failure.) -/
theorem claim_C1 (w : World) (g : String → Option String)
    (msgs : List PromptMessage) (models : Option (Provider → Option String)) :
    (setup_services g = [] →
      send_to_all w (setup_services g) msgs models = .ok [noServicesResp]) ∧
    (setup_services g ≠ [] →
      ∃ l, send_to_all w (setup_services g) msgs models = .ok l ∧
        l.length = (setup_services g).length ∧
        ∀ (i : Nat) (h1 : i < l.length) (h2 : i < (setup_services g).length),
          (l.get ⟨i, h1⟩).provider = brandStr ((setup_services g).get ⟨i, h2⟩)) := by
  constructor
  · intro hempty
    unfold send_to_all
    rw [if_pos (by simp [hempty])]
  · intro hne
    refine ⟨(setup_services g).map fun p =>
      toolNotFoundResp p (resolvedModelD (modelsGet models p) p), ?_, ?_, ?_⟩
    · unfold send_to_all
      rw [if_neg (by simpa [List.isEmpty_iff] using hne)]
      exact mapM_ok_of _ _ _ (fun p hmem =>
        send_to_provider_noAction w _ p msgs (modelsGet models p)
          (mem_setup_not_perplexity hmem) hmem)
    · simp
    · intro i h1 h2
      simp [toolNotFoundResp]

theorem claim_C1_witness :
    setup_services openaiOnlyEnv ≠ [] ∧
      ∃ l, send_to_all probeWorld (setup_services openaiOnlyEnv) [] none = .ok l ∧
        l.length = (setup_services openaiOnlyEnv).length ∧
        ∀ (i : Nat) (h1 : i < l.length) (h2 : i < (setup_services openaiOnlyEnv).length),
          (l.get ⟨i, h1⟩).provider = brandStr ((setup_services openaiOnlyEnv).get ⟨i, h2⟩) :=
  ⟨by decide, (claim_C1 probeWorld openaiOnlyEnv [] none).2 (by decide)⟩

/-- C3 counterexample: the OpenAI adapter never compares the inbound
function call's name with the expected tool name — it validates the
call's arguments regardless.  With a call named `totally_wrong_tool`
carrying arguments `"\x7b\x7d"` (an empty JSON object, which
`JudgeResponse` accepts, all fields defaulting), `send_prompt` returns a
SUCCESS envelope: no "unexpected tool/function invoked" error, non-empty
content built from that invocation's arguments — refuting the claim for
the OpenAI adapter. -/
theorem claim_C3_counterexample :
    (openAISendPrompt true probeWorld.bwr [] "gpt-4.1" (some "judge_response")
        (.ok wrongNameResponse)).error = none ∧
    (openAISendPrompt true probeWorld.bwr [] "gpt-4.1" (some "judge_response")
        (.ok wrongNameResponse)).content ≠ "" := by
  exact ⟨rfl, by decide⟩

/-- C3 (amended): the Anthropic and Gemini adapters do return an
"unexpected tool/function" error envelope (empty content, no fallback,
the invocation's arguments unused) whenever the first inbound
tool/function invocation is named differently from the expected tool of
the requested action; the OpenAI adapter, however, never checks the
name: its result is identical for any two names on the same
function-call item, and the invocation's arguments are validated as if
the tool matched. -/
theorem claim_C3 :
    (∀ (bwr : BWRValidator) (msgs : List PromptMessage) (model : String)
       (actStr : Option String) (act : AIAction) (resp : AnthropicResponse)
       (nm : String) (inp : Json),
       knownAction actStr = some act →
       firstToolUse resp.content = some (nm, inp) →
       nm ≠ expectedToolName act →
       anthropicSendPrompt true bwr msgs model actStr (.ok resp) =
         anthResp "" model (resp.usage.map fun p => p.1 + p.2)
           (some ("LLM responded with an unexpected tool: " ++ nm))) ∧
    (∀ (bwr : BWRValidator) (msgs : List PromptMessage) (model : String)
       (actStr : Option String) (act : AIAction) (cand : GeminiCandidate)
       (rest : List GeminiCandidate) (u : Option Int) (nm : String) (args : Json),
       knownAction actStr = some act →
       firstFunctionCall cand.parts = some (nm, args) →
       nm ≠ expectedToolName act →
       geminiSendPrompt true bwr msgs model actStr (.ok ⟨cand :: rest, u⟩) =
         gemResp "" model u
           (some ("LLM responded with an unexpected function: " ++ nm))) ∧
    (∀ (c : Bool) (bwr : BWRValidator) (msgs : List PromptMessage)
       (model : String) (a : Option String) (nm1 nm2 args : String)
       (items : List OpenAIOutput) (u : Option Int),
       openAISendPrompt c bwr msgs model a (.ok ⟨.functionCall nm1 args :: items, u⟩) =
         openAISendPrompt c bwr msgs model a (.ok ⟨.functionCall nm2 args :: items, u⟩)) := by
  refine ⟨?_, ?_, ?_⟩
  · intro bwr msgs model actStr act resp nm inp hact hfirst hnm
    have hne : resp.content.isEmpty = false := by
      cases hc : resp.content with
      | nil => rw [hc] at hfirst; simp [firstToolUse] at hfirst
      | cons x xs => simp
    simp only [anthropicSendPrompt, Bool.not_true, if_false, anthropicTryBody,
      hact, hne, hfirst]
    simp [hnm]
  · intro bwr msgs model actStr act cand rest u nm args hact hfirst hnm
    have hne : cand.parts.isEmpty = false := by
      cases hc : cand.parts with
      | nil => rw [hc] at hfirst; simp [firstFunctionCall] at hfirst
      | cons x xs => simp
    simp only [geminiSendPrompt, Bool.not_true, if_false, geminiTryBody,
      hact, hne, hfirst]
    simp [hnm]
  · intro c bwr msgs model a nm1 nm2 args items u
    cases c with
    | false => rfl
    | true =>
      cases hka : knownAction a with
      | none => simp [openAISendPrompt, openAITryBody, hka]
      | some act => simp [openAISendPrompt, openAITryBody, hka]

theorem claim_C3_witness :
    knownAction (some "judge_response") = some AIAction.judge ∧
      "wrong_tool" ≠ expectedToolName AIAction.judge ∧
      anthropicSendPrompt true probeWorld.bwr [] "claude-sonnet-4-20250514"
          (some "judge_response") (.ok anthWrongToolResp) =
        anthResp "" "claude-sonnet-4-20250514"
          (anthWrongToolResp.usage.map fun p => p.1 + p.2)
          (some ("LLM responded with an unexpected tool: " ++ "wrong_tool")) :=
  ⟨rfl, by decide,
    claim_C3.1 probeWorld.bwr [] "claude-sonnet-4-20250514" (some "judge_response")
      AIAction.judge anthWrongToolResp "wrong_tool" (.jobj []) rfl rfl (by decide)⟩

/-- C6: evaluating the code at the failing input.  Strict validation of
the malformed payload fails; the repair pass does synthesize exactly
`{score: 4, reason: "Automatically extracted score 4"}` for the
malformed field, as the claim describes; but the repaired mapping FAILS
the re-run of strict validation — `JudgeResponse` declares its rating
fields as `Optional[int]` (models/JudgeResponse.py), so the synthesized
`{score, reason}` object is itself invalid — and the adapter therefore
returns an error envelope, not the success envelope the claim (and the
adapter's own tool description and prompts, which demand exactly this
`{score, reason}` object shape) promises. -/
theorem claim_C6 :
    judgeValidate malformedScoreArgs = .error (.badFields ["clarity"]) ∧
    repairArgs malformedScoreArgs = .ok repairedScoreArgs ∧
    judgeValidate repairedScoreArgs = .error (.badFields ["clarity"]) ∧
    (anthropicValidateResponse probeWorld.bwr malformedScoreArgs .judge
        "claude-sonnet-4-20250514" (some 100)).content = "" ∧
    (anthropicValidateResponse probeWorld.bwr malformedScoreArgs .judge
        "claude-sonnet-4-20250514" (some 100)).error.isSome = true := by
  exact ⟨rfl, rfl, rfl, rfl, rfl⟩

/-- C9 counterexample: when the repair pass also fails, the envelope's
error is NOT the original strict-validation error alone — the code
renders `f"Validation failed: {e}. Fix attempt failed: {fix_error}"`,
which appends the repair attempt's failure detail after the original
one, refuting "carries the typed error from the original
strict-validation failure (not from the repair attempt)" read as the
error being that original error. -/
theorem claim_C9_counterexample :
    (anthropicValidateResponse probeWorld.bwr unparsableScoreArgs .judge "m" none).error =
      some ("Validation failed: " ++ valErrStr (.badFields ["clarity"]) ++
        ". Fix attempt failed: " ++ valErrStr (.badFields ["clarity"])) ∧
    (anthropicValidateResponse probeWorld.bwr unparsableScoreArgs .judge "m" none).error ≠
      some (valErrStr (.badFields ["clarity"])) := by
  exact ⟨rfl, by decide⟩

/-- C9 (amended): when the repair pass also fails, the envelope's error
message embeds the original (pre-repair) strict-validation failure
detail — prefixed `"Validation failed: "` — and additionally appends the
repair attempt's failure detail after `". Fix attempt failed: "`
(whether the fix loop raised or the re-validation failed). -/
theorem claim_C9 (bwr : BWRValidator) (input : Json) (model : String)
    (tokens : Option Int) (e : ValErr) (h1 : judgeValidate input = .error e) :
    (∀ (fixed : Json) (fe : ValErr), repairArgs input = .ok fixed →
       judgeValidate fixed = .error fe →
       anthropicValidateResponse bwr input .judge model tokens =
         anthResp "" model none
           (some ("Validation failed: " ++ valErrStr e ++
             ". Fix attempt failed: " ++ valErrStr fe))) ∧
    (∀ fixExn : PyExn, repairArgs input = .error fixExn →
       anthropicValidateResponse bwr input .judge model tokens =
         anthResp "" model none
           (some ("Validation failed: " ++ valErrStr e ++
             ". Fix attempt failed: " ++ fixExn.msg))) := by
  constructor
  · intro fixed fe h2 h3
    simp [anthropicValidateResponse, h1, h2, h3]
  · intro fixExn h2
    simp [anthropicValidateResponse, h1, h2]

theorem claim_C9_witness :
    judgeValidate unparsableScoreArgs = .error (.badFields ["clarity"]) ∧
      anthropicValidateResponse probeWorld.bwr unparsableScoreArgs .judge "m" none =
        anthResp "" "m" none
          (some ("Validation failed: " ++ valErrStr (.badFields ["clarity"]) ++
            ". Fix attempt failed: " ++ valErrStr (.badFields ["clarity"]))) :=
  ⟨rfl,
    (claim_C9 probeWorld.bwr unparsableScoreArgs "m" none (.badFields ["clarity"]) rfl).1
      (.jobj [("clarity", .jobj [("score", .jint 3),
        ("reason", .jstr "Could not parse malformed input")])])
      (.badFields ["clarity"]) rfl rfl⟩

/-! ## C5: envelope exclusivity -/

theorem judgeDumpJson_ne_empty (j : JudgeResponse) : judgeDumpJson j ≠ "" := by
  intro h
  have h2 := congrArg String.length h
  simp only [judgeDumpJson, String.length_append] at h2
  have h1 : lcurl.length = 1 := rfl
  have h4 : ("" : String).length = 0 := rfl
  omega

theorem renderObjStr_ne_empty (fields : List (String × Json)) :
    renderObjStr fields ≠ "" := by
  intro h
  have h2 := congrArg String.length h
  simp only [renderObjStr, String.length_append] at h2
  have h1 : lcurl.length = 1 := rfl
  have h4 : ("" : String).length = 0 := rfl
  omega

theorem envEx_err (p m : String) (t : Option Int) (msg : String) :
    envExclusive ⟨p, "", m, t, some msg⟩ :=
  Or.inr ⟨rfl, rfl⟩

theorem envEx_ok (p c m : String) (t : Option Int) (hc : c ≠ "") :
    envExclusive ⟨p, c, m, t, none⟩ :=
  Or.inl ⟨hc, rfl⟩

theorem anthropicValidateResponse_inv (bwr : BWRValidator) (input : Json)
    (act : AIAction) (model : String) (tokens : Option Int) :
    envExclusive (anthropicValidateResponse bwr input act model tokens) := by
  unfold anthropicValidateResponse
  cases act <;> (repeat' split) <;>
    first
      | exact envEx_err _ _ _ _
      | exact envEx_ok _ _ _ _ (renderObjStr_ne_empty _)
      | exact envEx_ok _ _ _ _ (judgeDumpJson_ne_empty _)

theorem geminiValidateResponse_inv (bwr : BWRValidator) (args : Json)
    (act : AIAction) (model : String) (tokens : Option Int) :
    envExclusive (geminiValidateResponse bwr args act model tokens) := by
  unfold geminiValidateResponse
  cases act <;> (repeat' split) <;>
    first
      | exact envEx_err _ _ _ _
      | exact envEx_ok _ _ _ _ (renderObjStr_ne_empty _)
      | exact envEx_ok _ _ _ _ (judgeDumpJson_ne_empty _)

theorem openAIValidateResponse_inv (bwr : BWRValidator) (args : String)
    (act : AIAction) (model : String) (tokens : Option Int) (r : AIResponse)
    (h : openAIValidateResponse bwr args act model tokens = .ok r) :
    envExclusive r := by
  unfold openAIValidateResponse at h
  cases hjl : jsonLoads args with
  | error e => rw [hjl] at h; dsimp only at h; exact Except.noConfusion h
  | ok toolArgs =>
    rw [hjl] at h
    dsimp only at h
    cases act with
    | workout =>
      cases hb : bwr toolArgs with
      | ok fields =>
        rw [hb] at h
        dsimp only at h
        cases h
        exact envEx_ok _ _ _ _ (renderObjStr_ne_empty fields)
      | error e => rw [hb] at h; dsimp only at h; cases h; exact envEx_err _ _ _ _
    | judge =>
      cases hb : judgeValidate toolArgs with
      | ok jr =>
        rw [hb] at h
        dsimp only at h
        cases h
        exact envEx_ok _ _ _ _ (judgeDumpJson_ne_empty jr)
      | error e => rw [hb] at h; dsimp only at h; cases h; exact envEx_err _ _ _ _

theorem openAITryBody_inv (bwr : BWRValidator) (model : String)
    (action : Option String) (remote : Except PyExn OpenAIResponse)
    (r : AIResponse) (h : openAITryBody bwr model action remote = .ok r) :
    envExclusive r := by
  unfold openAITryBody at h
  cases hka : knownAction action with
  | none => rw [hka] at h; dsimp only at h; cases h; exact envEx_err _ _ _ _
  | some act =>
    rw [hka] at h
    dsimp only at h
    cases remote with
    | error e => dsimp only at h; exact Except.noConfusion h
    | ok response =>
      dsimp only at h
      cases hout : response.output with
      | nil => rw [hout] at h; dsimp only at h; cases h; exact envEx_err _ _ _ _
      | cons item items =>
        rw [hout] at h
        dsimp only at h
        cases item with
        | functionCall nm args =>
          dsimp only at h
          exact openAIValidateResponse_inv bwr args act model _ r h
        | other => dsimp only at h; cases h; exact envEx_err _ _ _ _
        | message contents =>
          dsimp only at h
          by_cases hce : contents.isEmpty = true
          · rw [if_pos hce] at h; cases h; exact envEx_err _ _ _ _
          · rw [if_neg hce] at h
            by_cases ht : (concatTexts contents).trim = ""
            · rw [if_pos ht] at h; cases h; exact envEx_err _ _ _ _
            · rw [if_neg ht] at h
              cases hjl : jsonLoads (stripFences (concatTexts contents)) with
              | error e => rw [hjl] at h; dsimp only at h; exact Except.noConfusion h
              | ok parsed =>
                rw [hjl] at h
                dsimp only at h
                cases act with
                | workout =>
                  cases hb : bwr parsed with
                  | ok fields =>
                    rw [hb] at h
                    dsimp only at h
                    cases h
                    exact envEx_ok _ _ _ _ (renderObjStr_ne_empty fields)
                  | error e => rw [hb] at h; dsimp only at h; exact Except.noConfusion h
                | judge =>
                  cases hb : judgeValidate parsed with
                  | ok jr =>
                    rw [hb] at h
                    dsimp only at h
                    cases h
                    exact envEx_ok _ _ _ _ (judgeDumpJson_ne_empty jr)
                  | error e => rw [hb] at h; dsimp only at h; exact Except.noConfusion h

theorem openAISendPrompt_inv (c : Bool) (bwr : BWRValidator)
    (msgs : List PromptMessage) (model : String) (action : Option String)
    (remote : Except PyExn OpenAIResponse) :
    envExclusive (openAISendPrompt c bwr msgs model action remote) := by
  unfold openAISendPrompt
  cases c with
  | false => exact envEx_err _ _ _ _
  | true =>
    simp only [Bool.not_true, if_false]
    cases hb : openAITryBody bwr model action remote with
    | ok r => exact openAITryBody_inv bwr model action remote r hb
    | error e => exact envEx_err _ _ _ _

theorem anthropicTryBody_inv (bwr : BWRValidator) (model : String)
    (action : Option String) (remote : Except PyExn AnthropicResponse)
    (r : AIResponse) (h : anthropicTryBody bwr model action remote = .ok r) :
    envExclusive r := by
  unfold anthropicTryBody at h
  cases hka : knownAction action with
  | none => rw [hka] at h; dsimp only at h; cases h; exact envEx_err _ _ _ _
  | some act =>
    rw [hka] at h
    dsimp only at h
    cases remote with
    | error e => dsimp only at h; exact Except.noConfusion h
    | ok response =>
      dsimp only at h
      by_cases hce : response.content.isEmpty = true
      · rw [if_pos hce] at h; cases h; exact envEx_err _ _ _ _
      · rw [if_neg hce] at h
        cases hft : firstToolUse response.content with
        | some p =>
          obtain ⟨nm, inp⟩ := p
          rw [hft] at h
          dsimp only at h
          by_cases hnm : nm = expectedToolName act
          · rw [if_pos hnm] at h
            cases h
            exact anthropicValidateResponse_inv bwr inp act model _
          · rw [if_neg hnm] at h; cases h; exact envEx_err _ _ _ _
        | none =>
          rw [hft] at h
          dsimp only at h
          by_cases ht : (concatAnthTexts response.content).trim = ""
          · rw [if_pos ht] at h; cases h; exact envEx_err _ _ _ _
          · rw [if_neg ht] at h
            cases hjl : jsonLoads (stripFences (concatAnthTexts response.content)) with
            | error e => rw [hjl] at h; dsimp only at h; exact Except.noConfusion h
            | ok parsed =>
              rw [hjl] at h
              dsimp only at h
              cases act with
              | workout =>
                cases hb : bwr parsed with
                | ok fields =>
                  rw [hb] at h
                  dsimp only at h
                  cases h
                  exact envEx_ok _ _ _ _ (renderObjStr_ne_empty fields)
                | error e => rw [hb] at h; dsimp only at h; exact Except.noConfusion h
              | judge =>
                cases hb : judgeValidate parsed with
                | ok jr =>
                  rw [hb] at h
                  dsimp only at h
                  cases h
                  exact envEx_ok _ _ _ _ (judgeDumpJson_ne_empty jr)
                | error e => rw [hb] at h; dsimp only at h; exact Except.noConfusion h

theorem anthropicSendPrompt_inv (c : Bool) (bwr : BWRValidator)
    (msgs : List PromptMessage) (model : String) (action : Option String)
    (remote : Except PyExn AnthropicResponse) :
    envExclusive (anthropicSendPrompt c bwr msgs model action remote) := by
  unfold anthropicSendPrompt
  cases c with
  | false => exact envEx_err _ _ _ _
  | true =>
    simp only [Bool.not_true, if_false]
    cases hb : anthropicTryBody bwr model action remote with
    | ok r => exact anthropicTryBody_inv bwr model action remote r hb
    | error e => exact envEx_err _ _ _ _

theorem geminiTryBody_inv (bwr : BWRValidator) (model : String)
    (action : Option String) (remote : Except PyExn GeminiResponse)
    (r : AIResponse) (h : geminiTryBody bwr model action remote = .ok r) :
    envExclusive r := by
  unfold geminiTryBody at h
  cases hka : knownAction action with
  | none => rw [hka] at h; dsimp only at h; cases h; exact envEx_err _ _ _ _
  | some act =>
    rw [hka] at h
    dsimp only at h
    cases remote with
    | error e => dsimp only at h; exact Except.noConfusion h
    | ok response =>
      dsimp only at h
      cases hcand : response.candidates with
      | nil => rw [hcand] at h; dsimp only at h; cases h; exact envEx_err _ _ _ _
      | cons cand rest =>
        rw [hcand] at h
        dsimp only at h
        by_cases hce : cand.parts.isEmpty = true
        · rw [if_pos hce] at h; cases h; exact envEx_err _ _ _ _
        · rw [if_neg hce] at h
          cases hfc : firstFunctionCall cand.parts with
          | some p =>
            obtain ⟨nm, args⟩ := p
            rw [hfc] at h
            dsimp only at h
            by_cases hnm : nm = expectedToolName act
            · rw [if_pos hnm] at h
              cases h
              exact geminiValidateResponse_inv bwr args act model _
            · rw [if_neg hnm] at h; cases h; exact envEx_err _ _ _ _
          | none =>
            rw [hfc] at h
            dsimp only at h
            cases hct : concatGeminiTexts cand.parts with
            | error e => rw [hct] at h; dsimp only at h; exact Except.noConfusion h
            | ok contentText =>
              rw [hct] at h
              dsimp only at h
              by_cases ht : contentText.trim = ""
              · rw [if_pos ht] at h; cases h; exact envEx_err _ _ _ _
              · rw [if_neg ht] at h
                cases hjl : jsonLoads (stripFences contentText) with
                | error e => rw [hjl] at h; dsimp only at h; exact Except.noConfusion h
                | ok parsed =>
                  rw [hjl] at h
                  dsimp only at h
                  cases act with
                  | workout =>
                    cases hb : bwr parsed with
                    | ok fields =>
                      rw [hb] at h
                      dsimp only at h
                      cases h
                      exact envEx_ok _ _ _ _ (renderObjStr_ne_empty fields)
                    | error e => rw [hb] at h; dsimp only at h; exact Except.noConfusion h
                  | judge =>
                    cases hb : judgeValidate parsed with
                    | ok jr =>
                      rw [hb] at h
                      dsimp only at h
                      cases h
                      exact envEx_ok _ _ _ _ (judgeDumpJson_ne_empty jr)
                    | error e => rw [hb] at h; dsimp only at h; exact Except.noConfusion h

theorem geminiSendPrompt_inv (c : Bool) (bwr : BWRValidator)
    (msgs : List PromptMessage) (model : String) (action : Option String)
    (remote : Except PyExn GeminiResponse) :
    envExclusive (geminiSendPrompt c bwr msgs model action remote) := by
  unfold geminiSendPrompt
  cases c with
  | false => exact envEx_err _ _ _ _
  | true =>
    simp only [Bool.not_true, if_false]
    cases hb : geminiTryBody bwr model action remote with
    | ok r => exact geminiTryBody_inv bwr model action remote r hb
    | error e => exact envEx_err _ _ _ _

theorem mem_of_mapM_loop_ok {α : Type} (f : α → Except PyExn AIResponse) :
    ∀ (l : List α) (acc out : List AIResponse),
      List.mapM.loop f l acc = .ok out →
      ∀ r ∈ out, r ∈ acc ∨ ∃ a ∈ l, f a = .ok r := by
  intro l
  induction l with
  | nil =>
    intro acc out h r hr
    simp only [List.mapM.loop] at h
    cases h
    left
    exact List.mem_reverse.mp hr
  | cons a as ih =>
    intro acc out h r hr
    simp only [List.mapM.loop] at h
    cases hfa : f a with
    | error e => rw [hfa] at h; cases h
    | ok b =>
      rw [hfa] at h
      have h2 : List.mapM.loop f as (b :: acc) = .ok out := h
      rcases ih (b :: acc) out h2 r hr with hacc | ⟨x, hx, hfx⟩
      · rcases List.mem_cons.mp hacc with hb | hacc2
        · subst hb
          right
          exact ⟨a, by simp, hfa⟩
        · left; exact hacc2
      · right
        exact ⟨x, by simp [hx], hfx⟩

theorem mem_of_mapM_ok {α : Type} (f : α → Except PyExn AIResponse)
    (l : List α) (out : List AIResponse) (h : l.mapM f = .ok out)
    (r : AIResponse) (hr : r ∈ out) : ∃ a ∈ l, f a = .ok r := by
  have := mem_of_mapM_loop_ok f l [] out (by simpa [List.mapM] using h) r hr
  rcases this with hacc | hgood
  · cases hacc
  · exact hgood

theorem send_to_provider_inv (w : World) (services : List Provider)
    (p : Provider) (msgs : List PromptMessage) (model : Option String)
    (action : Option String) (r : AIResponse)
    (h : send_to_provider w services p msgs model action = .ok r) :
    envExclusive r := by
  unfold send_to_provider at h
  by_cases hmem : p ∈ services
  · rw [if_pos hmem] at h
    cases hrm : resolveModel model p with
    | error e => rw [hrm] at h; cases h
    | ok m =>
      rw [hrm] at h
      cases p with
      | openai => cases h; exact openAISendPrompt_inv _ _ _ _ _ _
      | anthropic => cases h; exact anthropicSendPrompt_inv _ _ _ _ _ _
      | gemini => cases h; exact geminiSendPrompt_inv _ _ _ _ _ _
      | perplexity => cases h
  · rw [if_neg hmem] at h
    cases h
    exact envEx_err _ _ _ _

/-- C5: every `ResponseEnvelope` the core constructs — from any adapter
`send_prompt` on any input and oracle outcome, from
`send_to_provider`, from `send_to_all` (including its synthetic
zero-provider envelope) — satisfies exclusivity: non-empty `content`
with `error = None`, or empty `content` with a populated `error`, never
both and never neither.  (Success content is a `model_dump_json()`
rendering, which always starts with a brace, hence is non-empty.) -/
theorem claim_C5 :
    (∀ (c : Bool) (bwr : BWRValidator) (msgs : List PromptMessage)
       (model : String) (action : Option String)
       (remote : Except PyExn OpenAIResponse),
       envExclusive (openAISendPrompt c bwr msgs model action remote)) ∧
    (∀ (c : Bool) (bwr : BWRValidator) (msgs : List PromptMessage)
       (model : String) (action : Option String)
       (remote : Except PyExn AnthropicResponse),
       envExclusive (anthropicSendPrompt c bwr msgs model action remote)) ∧
    (∀ (c : Bool) (bwr : BWRValidator) (msgs : List PromptMessage)
       (model : String) (action : Option String)
       (remote : Except PyExn GeminiResponse),
       envExclusive (geminiSendPrompt c bwr msgs model action remote)) ∧
    (∀ (w : World) (services : List Provider) (p : Provider)
       (msgs : List PromptMessage) (model action : Option String) (r : AIResponse),
       send_to_provider w services p msgs model action = .ok r → envExclusive r) ∧
    (∀ (w : World) (services : List Provider) (msgs : List PromptMessage)
       (models : Option (Provider → Option String)) (l : List AIResponse),
       send_to_all w services msgs models = .ok l → ∀ r ∈ l, envExclusive r) := by
  refine ⟨openAISendPrompt_inv, anthropicSendPrompt_inv, geminiSendPrompt_inv,
    send_to_provider_inv, ?_⟩
  intro w services msgs models l h r hr
  unfold send_to_all at h
  by_cases he : services.isEmpty
  · rw [if_pos he] at h
    cases h
    simp only [List.mem_singleton] at hr
    subst hr
    exact envEx_err _ _ _ _
  · rw [if_neg he] at h
    obtain ⟨p, hp, hfp⟩ := mem_of_mapM_ok _ services l h r hr
    exact send_to_provider_inv w services p msgs (modelsGet models p) none r hfp

theorem claim_C5_witness :
    send_to_provider probeWorld [Provider.openai] Provider.openai [] none none =
      .ok (toolNotFoundResp Provider.openai "gpt-4.1") ∧
    envExclusive (toolNotFoundResp Provider.openai "gpt-4.1") :=
  ⟨by rfl, claim_C5.2.2.2.1 probeWorld [Provider.openai] Provider.openai [] none none
    (toolNotFoundResp Provider.openai "gpt-4.1") (by rfl)⟩

/-! ## C7: all failures are envelopes; nothing escapes the factory -/

/-- C7: the adapter boundary converts failures into envelopes and the
factory never lets a provider-level exception out.  First three
conjuncts: a transport-level exception (`.error e` from the remote
oracle, any message) surfaces as an envelope whose `error` is exactly
`str(e)` — for each adapter, on a real action.  Last two conjuncts: over
a factory-constructed registration list, `send_to_provider` and
`send_to_all` always return `.ok` (the embedded `Except` tracks Python
raising; the only raising paths — the Perplexity `KeyError`/`TypeError`
arms — are unreachable because `_setup_services` never registers
Perplexity). -/
theorem claim_C7 :
    (∀ (bwr : BWRValidator) (msgs : List PromptMessage) (m : String) (e : PyExn),
       (openAISendPrompt true bwr msgs m (some "generate_workout_result")
         (.error e)).error = some e.msg) ∧
    (∀ (bwr : BWRValidator) (msgs : List PromptMessage) (m : String) (e : PyExn),
       (anthropicSendPrompt true bwr msgs m (some "generate_workout_result")
         (.error e)).error = some e.msg) ∧
    (∀ (bwr : BWRValidator) (msgs : List PromptMessage) (m : String) (e : PyExn),
       (geminiSendPrompt true bwr msgs m (some "generate_workout_result")
         (.error e)).error = some e.msg) ∧
    (∀ (w : World) (g : String → Option String) (p : Provider)
       (msgs : List PromptMessage) (model action : Option String),
       ∃ r, send_to_provider w (setup_services g) p msgs model action = .ok r) ∧
    (∀ (w : World) (g : String → Option String) (msgs : List PromptMessage)
       (models : Option (Provider → Option String)),
       ∃ l, send_to_all w (setup_services g) msgs models = .ok l) := by
  refine ⟨fun _ _ _ _ => rfl, fun _ _ _ _ => rfl, fun _ _ _ _ => rfl, ?_, ?_⟩
  · intro w g p msgs model action
    by_cases hmem : p ∈ setup_services g
    · have hp := mem_setup_not_perplexity hmem
      unfold send_to_provider
      rw [if_pos hmem, resolveModel_ok model p hp]
      cases p with
      | openai => exact ⟨_, rfl⟩
      | anthropic => exact ⟨_, rfl⟩
      | gemini => exact ⟨_, rfl⟩
      | perplexity => exact absurd rfl hp
    · refine ⟨⟨p.value, "", model.getD "", none,
        some ("Service not available for provider: " ++ p.value)⟩, ?_⟩
      unfold send_to_provider
      rw [if_neg hmem]
  · intro w g msgs models
    by_cases he : (setup_services g).isEmpty
    · refine ⟨[noServicesResp], ?_⟩
      unfold send_to_all
      rw [if_pos he]
    · refine ⟨(setup_services g).map fun p =>
        toolNotFoundResp p (resolvedModelD (modelsGet models p) p), ?_⟩
      unfold send_to_all
      rw [if_neg he]
      exact mapM_ok_of _ _ _ (fun p hmem =>
        send_to_provider_noAction w _ p msgs (modelsGet models p)
          (mem_setup_not_perplexity hmem) hmem)

/-- C8 counterexample: flattening `sibDefsSchema` resolves the FIRST
occurrence of `#/$defs/X` (property `a`) inline, but replaces the
SECOND, SIBLING occurrence (property `b`) with the generic open-ended
object marker `{"type": "object"}` — because `resolved_refs` is a single
set shared globally across the traversal, not tracked per path; and the
reference nested under property `c`'s non-schema key `extra` survives
unresolved in the output.  This refutes both "a reference is replaced by
a generic open-ended object marker only when it is encountered twice on
the same path — a reference merely reused at a sibling position is still
resolved inline" and "the resulting descriptor contains no unresolved
reference markers". -/
theorem claim_C8_counterexample :
    get_flattened_schema 100 sibDefsSchema = some sibFlattened ∧
    (∃ props,
      lookup? (objEntries sibFlattened) "properties" = some (.jobj props) ∧
      lookup? props "b" = some (.jobj [("type", .jstr "object")]) ∧
      lookup? props "b" ≠ some (Json.jobj [("type", Json.jstr "string")]) ∧
      lookup? props "c" =
        some (.jobj [("extra", .jobj [("$ref", .jstr "#/$defs/X")])])) := by
  refine ⟨rfl, [("a", .jobj [("type", .jstr "string")]),
    ("b", .jobj [("type", .jstr "object")]),
    ("c", .jobj [("extra", .jobj [("$ref", .jstr "#/$defs/X")])])], rfl, rfl, ?_, rfl⟩
  intro h
  simp only [lookup?, if_pos, if_neg] at h
  simp at h

theorem refsJ_lookup {kvs : List (String × Json)} {key : String} {v : Json}
    (h : lookup? kvs key = some v) : ∀ x ∈ refsJ v, x ∈ refsKVs kvs := by
  induction kvs with
  | nil => simp [lookup?] at h
  | cons kv rest ih =>
    obtain ⟨k, w⟩ := kv
    simp only [lookup?] at h
    by_cases hk : k = key
    · rw [if_pos hk] at h
      cases h
      intro x hx
      simp [refsKVs, hx]
    · rw [if_neg hk] at h
      intro x hx
      simp [refsKVs, ih h x hx]

theorem ref_mem_refsKVs {kvs : List (String × Json)} {ref : String}
    (h : lookup? kvs "$ref" = some (.jstr ref)) : ref ∈ refsKVs kvs := by
  induction kvs with
  | nil => simp [lookup?] at h
  | cons kv rest ih =>
    obtain ⟨k, w⟩ := kv
    simp only [lookup?] at h
    by_cases hk : k = "$ref"
    · rw [if_pos hk] at h
      cases h
      simp [refsKVs, hk]
    · rw [if_neg hk] at h
      simp [refsKVs, ih h]

theorem refsKVs_removeKey {kvs : List (String × Json)} {key : String} :
    ∀ x ∈ refsKVs (removeKey kvs key), x ∈ refsKVs kvs := by
  induction kvs with
  | nil => simp [removeKey]
  | cons kv rest ih =>
    obtain ⟨k, w⟩ := kv
    simp only [removeKey]
    by_cases hk : k = key
    · rw [if_pos hk]
      intro x hx
      simp [refsKVs, ih x hx]
    · rw [if_neg hk]
      intro x hx
      simp only [refsKVs, List.mem_append] at hx ⊢
      rcases hx with (hx | hx) | hx
      · exact Or.inl (Or.inl hx)
      · exact Or.inl (Or.inr hx)
      · exact Or.inr (ih x hx)

theorem refsKVs_setKey {kvs : List (String × Json)} {key : String} {v : Json} :
    ∀ x ∈ refsKVs (setKey kvs key v), x ∈ refsKVs ((key, v) :: kvs) := by
  induction kvs with
  | nil => intro x hx; exact hx
  | cons kv rest ih =>
    obtain ⟨k, w⟩ := kv
    simp only [setKey]
    by_cases hk : k = key
    · rw [if_pos hk]
      intro x hx
      simp only [refsKVs, List.mem_append] at hx ⊢
      tauto
    · rw [if_neg hk]
      intro x hx
      simp only [refsKVs, List.mem_append] at hx ⊢
      have h2 := ih x
      simp only [refsKVs, List.mem_append] at h2
      tauto

theorem refsKVs_dictUpdate {base upd : List (String × Json)} :
    ∀ x ∈ refsKVs (dictUpdate base upd), x ∈ refsKVs base ∨ x ∈ refsKVs upd := by
  induction upd generalizing base with
  | nil => intro x hx; exact Or.inl hx
  | cons kv upd ih =>
    obtain ⟨k, v⟩ := kv
    intro x hx
    have hstep : dictUpdate base ((k, v) :: upd) = dictUpdate (setKey base k v) upd := rfl
    rw [hstep] at hx
    have hset := fun hr => @refsKVs_setKey base k v x hr
    simp only [refsKVs, List.mem_append] at hset ⊢
    have hr := ih x hx
    tauto

theorem refsKVs_objEntries {d : Json} :
    ∀ x ∈ refsKVs (objEntries d), x ∈ refsJ d := by
  cases d <;> simp [objEntries, refsJ, refsKVs]

theorem refsDefs_lookup {defs : List (String × Json)} {name : String} {d : Json}
    (h : lookup? defs name = some d) : ∀ x ∈ refsJ d, x ∈ refsDefs defs := by
  induction defs with
  | nil => simp [lookup?] at h
  | cons kv rest ih =>
    obtain ⟨k, w⟩ := kv
    simp only [lookup?] at h
    by_cases hk : k = name
    · rw [if_pos hk] at h
      cases h
      intro x hx
      simp [refsDefs, hx]
    · rw [if_neg hk] at h
      intro x hx
      simp [refsDefs, ih h x hx]

theorem refsJ_propsMem {props : List (String × Json)} {k : String} {v : Json}
    (h : (k, v) ∈ props) : ∀ x ∈ refsJ v, x ∈ refsKVs props := by
  induction props with
  | nil => simp at h
  | cons kv rest ih =>
    rcases List.mem_cons.mp h with heq | hmem
    · obtain ⟨k2, v2⟩ := kv
      cases heq
      intro x hx
      simp [refsKVs, hx]
    · intro x hx
      obtain ⟨k2, v2⟩ := kv
      simp [refsKVs, ih hmem x hx]

theorem firstNonNullOption_mem {options : List Json} {opt : Json}
    (h : firstNonNullOption options = some opt) :
    opt ∈ options ∧ ∃ okvs, opt = .jobj okvs := by
  induction options with
  | nil => simp [firstNonNullOption] at h
  | cons o rest ih =>
    cases o with
    | jobj okvs =>
      simp only [firstNonNullOption] at h
      rcases hl : lookup? okvs "type" with _ | tv
      · rw [hl] at h
        dsimp only at h
        cases h
        exact ⟨by simp, okvs, rfl⟩
      · rw [hl] at h
        cases tv with
        | jstr s =>
          dsimp only at h
          by_cases hs : s = "null"
          · rw [if_pos hs] at h
            obtain ⟨hm, he⟩ := ih h
            exact ⟨by simp [hm], he⟩
          · rw [if_neg hs] at h
            cases h
            exact ⟨by simp, okvs, rfl⟩
        | null => dsimp only at h; cases h; exact ⟨by simp, okvs, rfl⟩
        | jbool b => dsimp only at h; cases h; exact ⟨by simp, okvs, rfl⟩
        | jint n => dsimp only at h; cases h; exact ⟨by simp, okvs, rfl⟩
        | jarr xs => dsimp only at h; cases h; exact ⟨by simp, okvs, rfl⟩
        | jobj kvs2 => dsimp only at h; cases h; exact ⟨by simp, okvs, rfl⟩
    | null => obtain ⟨hm, he⟩ := ih h; exact ⟨by simp [hm], he⟩
    | jbool b => obtain ⟨hm, he⟩ := ih h; exact ⟨by simp [hm], he⟩
    | jint n => obtain ⟨hm, he⟩ := ih h; exact ⟨by simp [hm], he⟩
    | jstr s => obtain ⟨hm, he⟩ := ih h; exact ⟨by simp [hm], he⟩
    | jarr xs => obtain ⟨hm, he⟩ := ih h; exact ⟨by simp [hm], he⟩

theorem refsL_mem {xs : List Json} {x : Json} (h : x ∈ xs) :
    ∀ y ∈ refsJ x, y ∈ refsL xs := by
  induction xs with
  | nil => simp at h
  | cons a rest ih =>
    rcases List.mem_cons.mp h with heq | hmem
    · cases heq
      intro y hy
      simp [refsL, hy]
    · intro y hy
      simp [refsL, ih hmem y hy]

theorem wKVs_removeKey_le {kvs : List (String × Json)} {key : String} :
    wKVs (removeKey kvs key) ≤ wKVs kvs := by
  induction kvs with
  | nil => simp [removeKey]
  | cons kv rest ih =>
    obtain ⟨k, w⟩ := kv
    simp only [removeKey]
    by_cases hk : k = key
    · rw [if_pos hk]
      calc wKVs (removeKey rest key) ≤ wKVs rest := ih
        _ ≤ 1 + wJ w + wKVs rest := by omega
    · rw [if_neg hk]
      simp only [wKVs]
      omega

theorem wKVs_lookup {kvs : List (String × Json)} {key : String} {v : Json}
    (h : lookup? kvs key = some v) :
    wKVs (removeKey kvs key) + 1 + wJ v ≤ wKVs kvs := by
  induction kvs with
  | nil => simp [lookup?] at h
  | cons kv rest ih =>
    obtain ⟨k, w⟩ := kv
    simp only [lookup?] at h
    by_cases hk : k = key
    · rw [if_pos hk] at h
      cases h
      simp only [removeKey, if_pos hk, wKVs]
      have := @wKVs_removeKey_le rest key
      omega
    · rw [if_neg hk] at h
      simp only [removeKey, if_neg hk, wKVs]
      have := ih h
      omega

theorem wJ_lookup {kvs : List (String × Json)} {key : String} {v : Json}
    (h : lookup? kvs key = some v) : 1 + wJ v ≤ wKVs kvs := by
  have := wKVs_lookup h
  omega

theorem wKVs_setKey_le {kvs : List (String × Json)} {key : String} {v : Json} :
    wKVs (setKey kvs key v) ≤ wKVs kvs + 1 + wJ v := by
  induction kvs with
  | nil => simp [setKey, wKVs]
  | cons kv rest ih =>
    obtain ⟨k, w⟩ := kv
    simp only [setKey]
    by_cases hk : k = key
    · rw [if_pos hk]
      simp only [wKVs]
      omega
    · rw [if_neg hk]
      simp only [wKVs]
      omega

theorem wKVs_dictUpdate_le {base upd : List (String × Json)} :
    wKVs (dictUpdate base upd) ≤ wKVs base + wKVs upd := by
  induction upd generalizing base with
  | nil => simp [dictUpdate]
  | cons kv upd ih =>
    obtain ⟨k, v⟩ := kv
    have hstep : dictUpdate base ((k, v) :: upd) = dictUpdate (setKey base k v) upd := rfl
    rw [hstep]
    calc wKVs (dictUpdate (setKey base k v) upd)
        ≤ wKVs (setKey base k v) + wKVs upd := ih
      _ ≤ (wKVs base + 1 + wJ v) + wKVs upd := by
          have := @wKVs_setKey_le base k v
          omega
      _ = wKVs base + wKVs ((k, v) :: upd) := by simp only [wKVs]; omega

theorem wKVs_setKey_replace {kvs : List (String × Json)} {key : String}
    {v v2 : Json} (h : lookup? kvs key = some v) (hle : wJ v2 ≤ wJ v) :
    wKVs (setKey kvs key v2) ≤ wKVs kvs := by
  induction kvs with
  | nil => simp [lookup?] at h
  | cons kv rest ih =>
    obtain ⟨k, w⟩ := kv
    simp only [lookup?] at h
    by_cases hk : k = key
    · rw [if_pos hk] at h
      cases h
      simp only [setKey, if_pos hk, wKVs]
      omega
    · rw [if_neg hk] at h
      simp only [setKey, if_neg hk, wKVs]
      have := ih h
      omega

theorem wL_mem {xs : List Json} {x : Json} (h : x ∈ xs) : wJ x ≤ wL xs := by
  induction xs with
  | nil => simp at h
  | cons a rest ih =>
    rcases List.mem_cons.mp h with heq | hmem
    · cases heq; simp only [wL]; omega
    · simp only [wL]
      have := ih hmem
      omega

theorem wKVs_mem {props : List (String × Json)} {k : String} {v : Json}
    (h : (k, v) ∈ props) : 1 + wJ v ≤ wKVs props := by
  induction props with
  | nil => simp at h
  | cons kv rest ih =>
    rcases List.mem_cons.mp h with heq | hmem
    · obtain ⟨k2, v2⟩ := kv
      cases heq
      simp only [wKVs]
      omega
    · obtain ⟨k2, v2⟩ := kv
      simp only [wKVs]
      have := ih hmem
      omega

theorem Vset_subset {defs : List (String × Json)} {r r' rl rl' : List String}
    (hres : r ⊆ r') (hrl : ∀ x ∈ rl', x ∈ rl ∨ x ∈ refsDefs defs) :
    Vset defs r' rl' ⊆ Vset defs r rl := by
  intro x hx
  simp only [Vset, Finset.mem_sdiff, List.mem_toFinset, List.mem_append] at hx ⊢
  obtain ⟨hin, hout⟩ := hx
  refine ⟨?_, fun hc => hout (hres hc)⟩
  rcases hin with h1 | h2
  · exact hrl x h1
  · exact Or.inr h2

theorem Vset_card_le {defs : List (String × Json)} {r r' rl rl' : List String}
    (hres : r ⊆ r') (hrl : ∀ x ∈ rl', x ∈ rl ∨ x ∈ refsDefs defs) :
    (Vset defs r' rl').card ≤ (Vset defs r rl).card :=
  Finset.card_le_card (Vset_subset hres hrl)

theorem Vset_card_lt {defs : List (String × Json)} {r r' rl rl' : List String}
    {ref : String} (hres : r ⊆ r')
    (hrl : ∀ x ∈ rl', x ∈ rl ∨ x ∈ refsDefs defs)
    (h1 : ref ∈ rl) (h2 : ref ∉ r) (h3 : ref ∈ r') :
    (Vset defs r' rl').card < (Vset defs r rl).card := by
  apply Finset.card_lt_card
  rw [Finset.ssubset_iff_of_subset (Vset_subset hres hrl)]
  refine ⟨ref, ?_, ?_⟩
  · simp only [Vset, Finset.mem_sdiff, List.mem_toFinset, List.mem_append]
    exact ⟨Or.inl h1, h2⟩
  · simp only [Vset, Finset.mem_sdiff, List.mem_toFinset, List.mem_append]
    intro hc
    exact hc.2 h3

theorem muA_mono {defs : List (String × Json)} {r r' rl rl' : List String}
    {w w' : Nat} (hres : r ⊆ r')
    (hrl : ∀ x ∈ rl', x ∈ rl ∨ x ∈ refsDefs defs) (hw : w' ≤ w) :
    muA defs r' rl' w' ≤ muA defs r rl w := by
  unfold muA
  have := @Vset_card_le defs _ _ _ _ hres hrl
  have h2 := Nat.mul_le_mul_right (wKVs defs + 1) this
  omega

theorem muA_lt_of_card_lt {defs : List (String × Json)} {r r' rl rl' : List String}
    {w w' : Nat} (hlt : (Vset defs r' rl').card < (Vset defs r rl).card)
    (hw : w' ≤ w + wKVs defs) :
    muA defs r' rl' w' < muA defs r rl w := by
  unfold muA
  have h1 : ((Vset defs r' rl').card + 1) * (wKVs defs + 1) ≤
      (Vset defs r rl).card * (wKVs defs + 1) :=
    Nat.mul_le_mul_right _ hlt
  have h2 : ((Vset defs r' rl').card + 1) * (wKVs defs + 1) =
      (Vset defs r' rl').card * (wKVs defs + 1) + (wKVs defs + 1) := by ring
  omega

theorem wKVs_objEntries_le {d : Json} : wKVs (objEntries d) ≤ wJ d := by
  cases d <;> simp only [objEntries, wJ, wKVs] <;> omega

theorem Vset_card_after {defs : List (String × Json)} {pre resolved rl rl' : List String}
    (hnd : pre.Nodup)
    (hpre : ∀ x ∈ pre, (x ∈ rl ∨ x ∈ refsDefs defs) ∧ x ∉ resolved)
    (hrl : ∀ x ∈ rl', x ∈ rl ∨ x ∈ refsDefs defs) :
    (Vset defs (pre ++ resolved) rl').card + pre.length ≤
      (Vset defs resolved rl).card := by
  have hBsub : Vset defs (pre ++ resolved) rl' ⊆
      Vset defs resolved rl \ pre.toFinset := by
    intro x hx
    have hx2 : x ∈ Vset defs resolved rl :=
      Vset_subset (List.subset_append_right pre resolved) hrl hx
    simp only [Finset.mem_sdiff, List.mem_toFinset]
    refine ⟨hx2, ?_⟩
    intro hxpre
    simp only [Vset, Finset.mem_sdiff, List.mem_toFinset, List.mem_append] at hx
    exact hx.2 (Or.inl hxpre)
  have hPsub : pre.toFinset ⊆ Vset defs resolved rl := by
    intro x hx
    simp only [List.mem_toFinset] at hx
    obtain ⟨hin, hout⟩ := hpre x hx
    simp only [Vset, Finset.mem_sdiff, List.mem_toFinset, List.mem_append]
    exact ⟨hin, hout⟩
  have h1 : (Vset defs (pre ++ resolved) rl').card ≤
      (Vset defs resolved rl \ pre.toFinset).card :=
    Finset.card_le_card hBsub
  have h2 : (Vset defs resolved rl \ pre.toFinset).card + pre.toFinset.card =
      (Vset defs resolved rl).card :=
    Finset.card_sdiff_add_card_eq_card hPsub
  have h3 : pre.toFinset.card = pre.length := List.toFinset_card_of_nodup hnd
  omega

theorem RunPost_muA {defs : List (String × Json)} {resolved rl : List String}
    {w : Nat} {out : List String × Json}
    (h : RunPost defs resolved rl w out) :
    muA defs out.1 (refsJ out.2) (wJ out.2) ≤ muA defs resolved rl w := by
  obtain ⟨pre, heq, hnd, hpre, hrefs, hw⟩ := h
  have hcard := @Vset_card_after defs _ _ _ _ hnd hpre hrefs
  rw [← heq] at hcard
  unfold muA
  have hmul : (Vset defs out.1 (refsJ out.2)).card * (wKVs defs + 1) +
      pre.length * (wKVs defs + 1) ≤
      (Vset defs resolved rl).card * (wKVs defs + 1) := by
    have := Nat.mul_le_mul_right (wKVs defs + 1) hcard
    calc (Vset defs out.1 (refsJ out.2)).card * (wKVs defs + 1) +
          pre.length * (wKVs defs + 1)
        = ((Vset defs out.1 (refsJ out.2)).card + pre.length) * (wKVs defs + 1) := by ring
      _ ≤ (Vset defs resolved rl).card * (wKVs defs + 1) := this
  have hw2 : pre.length * wKVs defs ≤ pre.length * (wKVs defs + 1) :=
    Nat.mul_le_mul_left _ (by omega)
  omega

theorem RunPost_muA_strict {defs : List (String × Json)} {resolved rl : List String}
    {w : Nat} {out : List String × Json}
    (h : RunPost defs resolved rl w out) (hne : out.1 ≠ resolved) :
    muA defs out.1 (refsJ out.2) (wJ out.2) < muA defs resolved rl w := by
  obtain ⟨pre, heq, hnd, hpre, hrefs, hw⟩ := h
  have hlen : 1 ≤ pre.length := by
    cases pre with
    | nil => exact absurd (by simpa using heq) hne
    | cons a as => simp
  have hcard := @Vset_card_after defs _ _ _ _ hnd hpre hrefs
  rw [← heq] at hcard
  unfold muA
  have hmul : (Vset defs out.1 (refsJ out.2)).card * (wKVs defs + 1) +
      pre.length * (wKVs defs + 1) ≤
      (Vset defs resolved rl).card * (wKVs defs + 1) := by
    have := Nat.mul_le_mul_right (wKVs defs + 1) hcard
    calc (Vset defs out.1 (refsJ out.2)).card * (wKVs defs + 1) +
          pre.length * (wKVs defs + 1)
        = ((Vset defs out.1 (refsJ out.2)).card + pre.length) * (wKVs defs + 1) := by ring
      _ ≤ (Vset defs resolved rl).card * (wKVs defs + 1) := this
  have hw2 : pre.length * wKVs defs + pre.length = pre.length * (wKVs defs + 1) := by ring
  omega

theorem RunPost_refl (defs : List (String × Json)) (resolved rl : List String)
    (w : Nat) (j : Json) (hrefs : ∀ x ∈ refsJ j, x ∈ rl ∨ x ∈ refsDefs defs)
    (hw : wJ j ≤ w) : RunPost defs resolved rl w (resolved, j) :=
  ⟨[], rfl, List.nodup_nil, by simp, hrefs, by simpa using hw⟩

theorem RunPost_trans {defs : List (String × Json)} {resolved rl : List String}
    {w : Nat} {r1 : List String} {j1 : Json} {out2 : List String × Json}
    (h1 : RunPost defs resolved rl w (r1, j1))
    (h2 : RunPost defs r1 (refsJ j1) (wJ j1) out2) :
    RunPost defs resolved rl w out2 := by
  obtain ⟨pre1, heq1, hnd1, hpre1, hrefs1, hw1⟩ := h1
  obtain ⟨pre2, heq2, hnd2, hpre2, hrefs2, hw2⟩ := h2
  dsimp only at heq1 hrefs1 hw1
  refine ⟨pre2 ++ pre1, ?_, ?_, ?_, ?_, ?_⟩
  · rw [heq2, heq1, List.append_assoc]
  · rw [List.nodup_append]
    refine ⟨hnd2, hnd1, ?_⟩
    intro x hx2 hx1
    have := (hpre2 x hx2).2
    rw [heq1] at this
    exact this (List.mem_append.mpr (Or.inl hx1))
  · intro x hx
    rcases List.mem_append.mp hx with hx2 | hx1
    · obtain ⟨hin, hout⟩ := hpre2 x hx2
      constructor
      · rcases hin with hj1 | hd
        · exact hrefs1 x hj1
        · exact Or.inr hd
      · intro hc
        rw [heq1] at hout
        exact hout (List.mem_append.mpr (Or.inr hc))
    · exact hpre1 x hx1
  · intro x hx
    rcases hrefs2 x hx with hj1 | hd
    · exact hrefs1 x hj1
    · exact Or.inr hd
  · rw [List.length_append]
    calc wJ out2.2 ≤ wJ j1 + pre2.length * wKVs defs := hw2
      _ ≤ (w + pre1.length * wKVs defs) + pre2.length * wKVs defs := by omega
      _ = w + (pre2.length + pre1.length) * wKVs defs := by ring

/-- Replacing the value found at `key` by `v2` shifts the weight by at
most the difference of the two values' weights. -/
theorem wKVs_setKey_general {kvs : List (String × Json)} {key : String}
    {v v2 : Json} (h : lookup? kvs key = some v) :
    wKVs (setKey kvs key v2) + wJ v ≤ wKVs kvs + wJ v2 := by
  induction kvs with
  | nil => simp [lookup?] at h
  | cons kv rest ih =>
    obtain ⟨k, w⟩ := kv
    simp only [lookup?] at h
    by_cases hk : k = key
    · rw [if_pos hk] at h
      cases h
      simp only [setKey, if_pos hk, wKVs]
      omega
    · rw [if_neg hk] at h
      simp only [setKey, if_neg hk, wKVs]
      have := ih h
      omega

/-- The input `resolved` list survives into the output of any step. -/
theorem RunPost_sub {defs : List (String × Json)} {resolved rl : List String}
    {w : Nat} {out : List String × Json}
    (h : RunPost defs resolved rl w out) : resolved ⊆ out.1 := by
  obtain ⟨pre, heq, _⟩ := h
  rw [heq]
  exact List.subset_append_right _ _

/-- A postcondition for a smaller reference list and weight also holds
for a larger one. -/
theorem RunPost_weaken {defs : List (String × Json)} {resolved rl rl' : List String}
    {w w' : Nat} {out : List String × Json}
    (hrl : ∀ x ∈ rl', x ∈ rl ∨ x ∈ refsDefs defs) (hw : w' ≤ w)
    (h : RunPost defs resolved rl' w' out) :
    RunPost defs resolved rl w out := by
  obtain ⟨pre, heq, hnd, hpre, hrefs, hwout⟩ := h
  refine ⟨pre, heq, hnd, ?_, ?_, by omega⟩
  · intro x hx
    obtain ⟨hin, hout⟩ := hpre x hx
    refine ⟨?_, hout⟩
    rcases hin with h1 | h2
    · exact hrl x h1
    · exact Or.inr h2
  · intro x hx
    rcases hrefs x hx with h1 | h2
    · exact hrl x h1
    · exact Or.inr h2

/-- Moving from a node's state measure to a member value's state measure
frees at least two units of weight (the member slot costs one, the
object wrapper another). -/
theorem muA_inner_le {defs : List (String × Json)} (r : List String)
    {kvs : List (String × Json)} {key : String} {v : Json}
    (h : lookup? kvs key = some v) :
    muA defs r (refsJ v) (wJ v) + 2 ≤ muA defs r (refsKVs kvs) (wJ (.jobj kvs)) := by
  have hcard : (Vset defs r (refsJ v)).card ≤ (Vset defs r (refsKVs kvs)).card :=
    Vset_card_le (fun x hx => hx) (fun x hx => Or.inl (refsJ_lookup h x hx))
  have hw := wJ_lookup h
  have hmul := Nat.mul_le_mul_right (wKVs defs + 1) hcard
  unfold muA
  simp only [wJ]
  omega

/-- Popping `title` preserves the step postcondition on an unchanged
state. -/
theorem RunPost_popTitle (defs : List (String × Json)) (r : List String)
    (kvs : List (String × Json)) :
    RunPost defs r (refsKVs kvs) (wJ (.jobj kvs)) (r, popTitle (.jobj kvs)) := by
  refine RunPost_refl defs r _ _ (popTitle (.jobj kvs)) ?_ ?_
  · intro x hx
    exact Or.inl (refsKVs_removeKey x hx)
  · show wJ (.jobj (removeKey kvs "title")) ≤ wJ (.jobj kvs)
    simp only [wJ]
    have := @wKVs_removeKey_le kvs "title"
    omega

/-- Rebuilding a node by writing the processed value of one of its
members (a member that is not `$ref`) back into the member slot
preserves the step postcondition at the node's reference list and
weight. -/
theorem RunPost_rebuild {defs : List (String × Json)} {r1 r2 : List String}
    {kvs1 : List (String × Json)} {key : String} {v v2 : Json}
    (hkey : ¬ key = "$ref") (h : lookup? kvs1 key = some v)
    (hpost : RunPost defs r1 (refsJ v) (wJ v) (r2, v2)) :
    RunPost defs r1 (refsKVs kvs1) (wJ (.jobj kvs1))
      (r2, .jobj (setKey kvs1 key v2)) := by
  obtain ⟨pre, heq, hnd, hpre, hrefs, hw⟩ := hpost
  dsimp only at heq hrefs hw
  refine ⟨pre, heq, hnd, ?_, ?_, ?_⟩
  · intro x hx
    obtain ⟨hin, hout⟩ := hpre x hx
    refine ⟨?_, hout⟩
    rcases hin with h1 | h2
    · exact Or.inl (refsJ_lookup h x h1)
    · exact Or.inr h2
  · intro x hx
    have hx2 := refsKVs_setKey x hx
    simp only [refsKVs, List.mem_append, if_neg hkey, List.not_mem_nil,
      false_or] at hx2
    rcases hx2 with hx2 | hx2
    · rcases hrefs x hx2 with h1 | h2
      · exact Or.inl (refsJ_lookup h x h1)
      · exact Or.inr h2
    · exact Or.inl hx2
  · dsimp only [wJ]
    have h1 := @wKVs_setKey_general kvs1 key v v2 h
    omega

/-- Adequacy of the `items` recursion followed by the `title` pop, for a
state whose measure fits under the fuel. -/
theorem step3Phase (defs : List (String × Json)) (n : Nat) (IH : IHyp defs n)
    (r2 : List String) (kvs2 : List (String × Json))
    (hb : muA defs r2 (refsKVs kvs2) (wJ (.jobj kvs2)) ≤ n) :
    ∃ out,
      (match
        (match lookup? kvs2 "items" with
         | some itemsVal =>
           match runResolve defs n r2 (RTask.res itemsVal) with
           | none => none
           | some (r3, it3) => some (r3, Json.jobj (setKey kvs2 "items" it3))
         | none => some (r2, Json.jobj kvs2)) with
       | none => none
       | some (r3, j3) => some (r3, popTitle j3)) = some out ∧
      RunPost defs r2 (refsKVs kvs2) (wJ (Json.jobj kvs2)) out ∧
      ∃ kvs4, out.2 = Json.jobj kvs4 := by
  rcases hi : lookup? kvs2 "items" with _ | itemsVal
  · refine ⟨(r2, popTitle (Json.jobj kvs2)), ?_, ?_, ?_⟩
    · rfl
    · exact RunPost_popTitle defs r2 kvs2
    · exact ⟨removeKey kvs2 "title", rfl⟩
  · have hmu := @muA_inner_le defs r2 _ _ _ hi
    have hlt : muT defs r2 (.res itemsVal) < n := by
      unfold muT
      dsimp only [taskJson]
      omega
    obtain ⟨⟨r3, it3⟩, hrun, hpost, hshape⟩ := IH r2 (.res itemsVal) hlt
    refine ⟨(r3, popTitle (Json.jobj (setKey kvs2 "items" it3))), ?_, ?_, ?_⟩
    · dsimp only
      rw [hrun]
    · have h2 : RunPost defs r2 (refsKVs kvs2) (wJ (.jobj kvs2))
          (r3, .jobj (setKey kvs2 "items" it3)) :=
        RunPost_rebuild (by decide) hi hpost
      exact RunPost_trans h2 (RunPost_popTitle defs r3 (setKey kvs2 "items" it3))
    · exact ⟨removeKey (setKey kvs2 "items" it3) "title", rfl⟩

/-- Adequacy of the tail of the `aft` task (the `properties` loop, the
`items` recursion, and the `title` pop) for any state fitting under the
fuel. -/
theorem aftTail (defs : List (String × Json)) (n : Nat) (IH : IHyp defs n)
    (r1 : List String) (j1 : Json)
    (hb : muA defs r1 (refsJ j1) (wJ j1) ≤ n) :
    ∃ out,
      (match
        (match j1 with
         | Json.jobj kvs1 =>
           match lookup? kvs1 "properties" with
           | some (Json.jobj props) =>
             match runResolve defs n r1 (RTask.props props) with
             | some (r2, Json.jobj props2) =>
               some (r2, Json.jobj (setKey kvs1 "properties" (Json.jobj props2)))
             | _ => none
           | _ => some (r1, j1)
         | _ => some (r1, j1)) with
       | none => none
       | some (r2, j2) =>
         match
           (match j2 with
            | Json.jobj kvs2 =>
              match lookup? kvs2 "items" with
              | some itemsVal =>
                match runResolve defs n r2 (RTask.res itemsVal) with
                | none => none
                | some (r3, it3) => some (r3, Json.jobj (setKey kvs2 "items" it3))
              | none => some (r2, j2)
            | _ => some (r2, j2)) with
         | none => none
         | some (r3, j3) => some (r3, popTitle j3)) = some out ∧
      RunPost defs r1 (refsJ j1) (wJ j1) out ∧
      (out.2 = j1 ∨ ∃ kvs3, out.2 = Json.jobj kvs3) := by
  cases j1 with
  | null =>
    exact ⟨(r1, .null), rfl,
      RunPost_refl _ _ _ _ _ (fun x hx => Or.inl hx) le_rfl, Or.inl rfl⟩
  | jbool b =>
    exact ⟨(r1, .jbool b), rfl,
      RunPost_refl _ _ _ _ _ (fun x hx => Or.inl hx) le_rfl, Or.inl rfl⟩
  | jint m =>
    exact ⟨(r1, .jint m), rfl,
      RunPost_refl _ _ _ _ _ (fun x hx => Or.inl hx) le_rfl, Or.inl rfl⟩
  | jstr s =>
    exact ⟨(r1, .jstr s), rfl,
      RunPost_refl _ _ _ _ _ (fun x hx => Or.inl hx) le_rfl, Or.inl rfl⟩
  | jarr xs =>
    exact ⟨(r1, .jarr xs), rfl,
      RunPost_refl _ _ _ _ _ (fun x hx => Or.inl hx) le_rfl, Or.inl rfl⟩
  | jobj kvs1 =>
    dsimp only
    rcases hp : lookup? kvs1 "properties" with _ | pv
    · obtain ⟨out, hT, hP, hS⟩ := step3Phase defs n IH r1 kvs1 hb
      exact ⟨out, hT, hP, Or.inr hS⟩
    · cases pv with
      | jobj props =>
        have hmu := @muA_inner_le defs r1 _ _ _ hp
        have hlt : muT defs r1 (.props props) < n := by
          unfold muT
          dsimp only [taskJson]
          have hb' : muA defs r1 (refsKVs kvs1) (wJ (.jobj kvs1)) ≤ n := hb
          omega
        obtain ⟨⟨r2, jp⟩, hrunP, hpostP, hshapeP⟩ := IH r1 (.props props) hlt
        obtain ⟨props2, hjp⟩ : ∃ props2, jp = Json.jobj props2 := by
          rcases hshapeP with h | ⟨k2, h⟩
          · exact ⟨props, h⟩
          · exact ⟨k2, h⟩
        subst hjp
        have hphase2 : RunPost defs r1 (refsKVs kvs1) (wJ (.jobj kvs1))
            (r2, .jobj (setKey kvs1 "properties" (.jobj props2))) :=
          RunPost_rebuild (by decide) hp hpostP
        have hb2 : muA defs r2 (refsKVs (setKey kvs1 "properties" (.jobj props2)))
            (wJ (.jobj (setKey kvs1 "properties" (.jobj props2)))) ≤ n := by
          have h1 := RunPost_muA hphase2
          dsimp only at h1
          exact le_trans h1 hb
        obtain ⟨out, hT, hP, hS⟩ :=
          step3Phase defs n IH r2 (setKey kvs1 "properties" (.jobj props2)) hb2
        refine ⟨out, ?_, RunPost_trans hphase2 hP, Or.inr hS⟩
        dsimp only
        rw [hrunP]
        exact hT
      | null =>
        obtain ⟨out, hT, hP, hS⟩ := step3Phase defs n IH r1 kvs1 hb
        exact ⟨out, hT, hP, Or.inr hS⟩
      | jbool b =>
        obtain ⟨out, hT, hP, hS⟩ := step3Phase defs n IH r1 kvs1 hb
        exact ⟨out, hT, hP, Or.inr hS⟩
      | jint m =>
        obtain ⟨out, hT, hP, hS⟩ := step3Phase defs n IH r1 kvs1 hb
        exact ⟨out, hT, hP, Or.inr hS⟩
      | jstr s =>
        obtain ⟨out, hT, hP, hS⟩ := step3Phase defs n IH r1 kvs1 hb
        exact ⟨out, hT, hP, Or.inr hS⟩
      | jarr xs =>
        obtain ⟨out, hT, hP, hS⟩ := step3Phase defs n IH r1 kvs1 hb
        exact ⟨out, hT, hP, Or.inr hS⟩

/-- Fuel adequacy: any task whose measure lies below the fuel runs to
completion, satisfies the step postcondition, and returns its input or
an object. -/
theorem runResolve_adequate (defs : List (String × Json)) :
    ∀ n : Nat, IHyp defs n := by
  intro n
  induction n with
  | zero =>
    intro resolved t h
    exact absurd h (Nat.not_lt_zero _)
  | succ n ih =>
    intro resolved t hmu
    cases t with
    | props kvs =>
      cases kvs with
      | nil =>
        refine ⟨(resolved, .jobj []), rfl, ?_, Or.inl rfl⟩
        refine RunPost_refl _ _ _ _ _ ?_ le_rfl
        intro x hx
        exact Or.inl hx
      | cons kv rest =>
        obtain ⟨k, v⟩ := kv
        simp only [muT, taskJson, refsJ, wJ, wKVs] at hmu
        have hmu' : muA defs resolved (refsKVs ((k, v) :: rest))
            (1 + (1 + wJ v + wKVs rest)) < n + 1 := hmu
        have hlk : lookup? ((k, v) :: rest) k = some v := by
          simp [lookup?]
        have hcardv : (Vset defs resolved (refsJ v)).card ≤
            (Vset defs resolved (refsKVs ((k, v) :: rest))).card :=
          Vset_card_le (fun x hx => hx)
            (fun x hx => Or.inl (refsJ_lookup hlk x hx))
        have hlt1 : muT defs resolved (.res v) < n := by
          simp only [muT, taskJson]
          unfold muA at hmu' ⊢
          have hmul := Nat.mul_le_mul_right (wKVs defs + 1) hcardv
          omega
        obtain ⟨⟨r1, v1⟩, hrun1, hpost1, hshape1⟩ := ih resolved (.res v) hlt1
        dsimp only [taskJson] at hpost1 hshape1
        have hsub1 : resolved ⊆ r1 := RunPost_sub hpost1
        have hcardr : (Vset defs r1 (refsKVs rest)).card ≤
            (Vset defs resolved (refsKVs ((k, v) :: rest))).card :=
          Vset_card_le hsub1
            (fun x hx => Or.inl (by simp [refsKVs, hx]))
        have hlt2 : muT defs r1 (.props rest) < n := by
          simp only [muT, taskJson, refsJ, wJ]
          unfold muA at hmu' ⊢
          have hmul := Nat.mul_le_mul_right (wKVs defs + 1) hcardr
          have hwv : 1 ≤ wJ v := by cases v <;> simp [wJ]
          omega
        obtain ⟨⟨r2, j2⟩, hrun2, hpost2, hshape2⟩ := ih r1 (.props rest) hlt2
        dsimp only [taskJson] at hpost2 hshape2
        obtain ⟨rest1, hrest1⟩ : ∃ rest1, j2 = Json.jobj rest1 := by
          rcases hshape2 with h | ⟨k2, h⟩
          · exact ⟨rest, h⟩
          · exact ⟨k2, h⟩
        subst hrest1
        refine ⟨(r2, Json.jobj ((k, v1) :: rest1)), ?_, ?_, Or.inr ⟨_, rfl⟩⟩
        · simp only [runResolve]
          rw [hrun1]
          dsimp only
          rw [hrun2]
        · -- assemble the postcondition by hand: the head's block then the
          -- tail's block
          obtain ⟨pre1, heq1, hnd1, hpre1, hrefs1, hw1⟩ := hpost1
          obtain ⟨pre2, heq2, hnd2, hpre2, hrefs2, hw2⟩ := hpost2
          dsimp only at heq1 hrefs1 hw1 heq2 hrefs2 hw2
          dsimp only [taskJson, refsJ, wJ]
          refine ⟨pre2 ++ pre1, ?_, ?_, ?_, ?_, ?_⟩
          · dsimp only
            rw [heq2, heq1, List.append_assoc]
          · rw [List.nodup_append]
            refine ⟨hnd2, hnd1, ?_⟩
            intro x hx2 hx1
            have := (hpre2 x hx2).2
            rw [heq1] at this
            exact this (List.mem_append.mpr (Or.inl hx1))
          · intro x hx
            rcases List.mem_append.mp hx with hx2 | hx1
            · obtain ⟨hin, hout⟩ := hpre2 x hx2
              constructor
              · rcases hin with h1 | h2
                · refine Or.inl ?_
                  simp only [refsKVs, List.mem_append]
                  have h1' : x ∈ refsKVs rest := h1
                  tauto
                · exact Or.inr h2
              · intro hc
                rw [heq1] at hout
                exact hout (List.mem_append.mpr (Or.inr hc))
            · obtain ⟨hin, hout⟩ := hpre1 x hx1
              constructor
              · rcases hin with h1 | h2
                · refine Or.inl ?_
                  simp only [refsKVs, List.mem_append]
                  have h1' : x ∈ refsJ v := h1
                  tauto
                · exact Or.inr h2
              · exact hout
          · intro x hx
            dsimp only at hx
            simp only [refsJ, refsKVs, List.mem_append] at hx
            rcases hx with (hx | hx) | hx
            · -- the rebuilt head entry can only contribute a `$ref`
              -- string when the head value came back unchanged
              by_cases hk : k = "$ref"
              · rw [if_pos hk] at hx
                rcases hshape1 with hv | ⟨kvsx, hv⟩
                · subst hv
                  refine Or.inl ?_
                  simp only [refsKVs, List.mem_append, if_pos hk]
                  exact Or.inl (Or.inl hx)
                · subst hv
                  exact absurd hx (List.not_mem_nil x)
              · rw [if_neg hk] at hx
                exact absurd hx (List.not_mem_nil x)
            · rcases hrefs1 x hx with h1 | h2
              · refine Or.inl ?_
                simp only [refsKVs, List.mem_append]
                tauto
              · exact Or.inr h2
            · have hx2 : x ∈ refsJ (Json.jobj rest1) := hx
              rcases hrefs2 x hx2 with h1 | h2
              · have h1' : x ∈ refsKVs rest := h1
                refine Or.inl ?_
                simp only [refsKVs, List.mem_append]
                tauto
              · exact Or.inr h2
          · dsimp only
            simp only [wJ, wKVs] at hw2 ⊢
            rw [List.length_append]
            have hdist : (pre2.length + pre1.length) * wKVs defs =
                pre2.length * wKVs defs + pre1.length * wKVs defs :=
              Nat.add_mul _ _ _
            omega
    | res j =>
      simp only [muT, taskJson] at hmu
      dsimp only [taskJson]
      have hlt : muT defs resolved (.aft j) < n := by
        simp only [muT, taskJson]
        omega
      cases j with
      | null =>
        obtain ⟨out, hrun, hpost, hshape⟩ := ih resolved (.aft .null) hlt
        dsimp only [taskJson] at hpost hshape
        exact ⟨out, by simp only [runResolve]; exact hrun, hpost, hshape⟩
      | jbool b =>
        obtain ⟨out, hrun, hpost, hshape⟩ := ih resolved (.aft (.jbool b)) hlt
        dsimp only [taskJson] at hpost hshape
        exact ⟨out, by simp only [runResolve]; exact hrun, hpost, hshape⟩
      | jint m =>
        obtain ⟨out, hrun, hpost, hshape⟩ := ih resolved (.aft (.jint m)) hlt
        dsimp only [taskJson] at hpost hshape
        exact ⟨out, by simp only [runResolve]; exact hrun, hpost, hshape⟩
      | jstr s =>
        obtain ⟨out, hrun, hpost, hshape⟩ := ih resolved (.aft (.jstr s)) hlt
        dsimp only [taskJson] at hpost hshape
        exact ⟨out, by simp only [runResolve]; exact hrun, hpost, hshape⟩
      | jarr xs =>
        obtain ⟨out, hrun, hpost, hshape⟩ := ih resolved (.aft (.jarr xs)) hlt
        dsimp only [taskJson] at hpost hshape
        exact ⟨out, by simp only [runResolve]; exact hrun, hpost, hshape⟩
      | jobj kvs =>
        rcases href : lookup? kvs "$ref" with _ | rv
        · obtain ⟨out, hrun, hpost, hshape⟩ := ih resolved (.aft (.jobj kvs)) hlt
          dsimp only [taskJson] at hpost hshape
          exact ⟨out, by simp only [runResolve]; rw [href]; exact hrun,
            hpost, hshape⟩
        · cases rv with
          | null =>
            obtain ⟨out, hrun, hpost, hshape⟩ := ih resolved (.aft (.jobj kvs)) hlt
            dsimp only [taskJson] at hpost hshape
            exact ⟨out, by simp only [runResolve]; rw [href]; exact hrun,
              hpost, hshape⟩
          | jbool b =>
            obtain ⟨out, hrun, hpost, hshape⟩ := ih resolved (.aft (.jobj kvs)) hlt
            dsimp only [taskJson] at hpost hshape
            exact ⟨out, by simp only [runResolve]; rw [href]; exact hrun,
              hpost, hshape⟩
          | jint m =>
            obtain ⟨out, hrun, hpost, hshape⟩ := ih resolved (.aft (.jobj kvs)) hlt
            dsimp only [taskJson] at hpost hshape
            exact ⟨out, by simp only [runResolve]; rw [href]; exact hrun,
              hpost, hshape⟩
          | jarr xs =>
            obtain ⟨out, hrun, hpost, hshape⟩ := ih resolved (.aft (.jobj kvs)) hlt
            dsimp only [taskJson] at hpost hshape
            exact ⟨out, by simp only [runResolve]; rw [href]; exact hrun,
              hpost, hshape⟩
          | jobj kvs2 =>
            obtain ⟨out, hrun, hpost, hshape⟩ := ih resolved (.aft (.jobj kvs)) hlt
            dsimp only [taskJson] at hpost hshape
            exact ⟨out, by simp only [runResolve]; rw [href]; exact hrun,
              hpost, hshape⟩
          | jstr ref =>
            by_cases hmem : ref ∈ resolved
            · -- already resolved: marker substitution, early return
              refine ⟨(resolved, markerObj kvs), ?_, ?_, Or.inr ⟨_, rfl⟩⟩
              · simp only [runResolve]
                rw [href]
                dsimp only
                rw [if_pos hmem]
              · refine RunPost_refl _ _ _ _ _ ?_ ?_
                · intro x hx
                  rcases refsKVs_dictUpdate x hx with h1 | h2
                  · exact Or.inl (refsKVs_removeKey x h1)
                  · have he : refsKVs [("type", Json.jstr "object")] =
                        ([] : List String) := rfl
                    rw [he] at h2
                    cases h2
                · have e1 : wJ (markerObj kvs) = 1 + wKVs (dictUpdate
                      (removeKey kvs "$ref") [("type", Json.jstr "object")]) := rfl
                  have e2 : wKVs [("type", Json.jstr "object")] = 2 := rfl
                  have e3 : wJ (Json.jobj kvs) = 1 + wKVs kvs := rfl
                  have h4 := @wKVs_dictUpdate_le (removeKey kvs "$ref")
                    [("type", Json.jstr "object")]
                  have h5 := wKVs_lookup href
                  have e6 : wJ (Json.jstr ref) = 1 := rfl
                  omega
            · rcases hd : lookup? defs (refName ref) with _ | defSchema
              · -- unknown definition: the code falls through to the tail
                obtain ⟨out, hrun, hpost, hshape⟩ :=
                  ih resolved (.aft (.jobj kvs)) hlt
                dsimp only [taskJson] at hpost hshape
                refine ⟨out, ?_, hpost, hshape⟩
                simp only [runResolve]
                rw [href]
                dsimp only
                rw [if_neg hmem, hd]
                exact hrun
              · -- expansion: inline the definition, retire the reference
                have hrefsM : ∀ x ∈ refsJ (Json.jobj (dictUpdate
                    (removeKey kvs "$ref") (objEntries defSchema))),
                    x ∈ refsKVs kvs ∨ x ∈ refsDefs defs := by
                  intro x hx
                  rcases refsKVs_dictUpdate x hx with h1 | h2
                  · exact Or.inl (refsKVs_removeKey x h1)
                  · exact Or.inr (refsDefs_lookup hd x (refsKVs_objEntries x h2))
                have hwM : wJ (Json.jobj (dictUpdate (removeKey kvs "$ref")
                    (objEntries defSchema))) + 2 ≤ wKVs kvs + wKVs defs := by
                  have e1 : wJ (Json.jobj (dictUpdate (removeKey kvs "$ref")
                      (objEntries defSchema))) = 1 + wKVs (dictUpdate
                      (removeKey kvs "$ref") (objEntries defSchema)) := rfl
                  have h4 := @wKVs_dictUpdate_le (removeKey kvs "$ref")
                    (objEntries defSchema)
                  have h5 := @wKVs_objEntries_le defSchema
                  have h6 := wJ_lookup hd
                  have h7 := wKVs_lookup href
                  have e6 : wJ (Json.jstr ref) = 1 := rfl
                  omega
                have hcard : (Vset defs (ref :: resolved) (refsJ (Json.jobj
                    (dictUpdate (removeKey kvs "$ref") (objEntries
                    defSchema))))).card <
                    (Vset defs resolved (refsKVs kvs)).card :=
                  Vset_card_lt (List.subset_cons_self ref resolved) hrefsM
                    (ref_mem_refsKVs href) hmem (List.mem_cons_self ref resolved)
                have hmu2 : muA defs resolved (refsKVs kvs)
                    (wJ (Json.jobj kvs)) + 1 < n + 1 := hmu
                have hlt1 : muT defs (ref :: resolved) (.res (Json.jobj
                    (dictUpdate (removeKey kvs "$ref") (objEntries
                    defSchema)))) < n := by
                  simp only [muT, taskJson]
                  unfold muA at hmu2 ⊢
                  have hcard1 : (Vset defs (ref :: resolved) (refsJ (Json.jobj
                      (dictUpdate (removeKey kvs "$ref") (objEntries
                      defSchema))))).card + 1 ≤
                      (Vset defs resolved (refsKVs kvs)).card := hcard
                  have hmul := Nat.mul_le_mul_right (wKVs defs + 1) hcard1
                  have hexp : ((Vset defs (ref :: resolved) (refsJ (Json.jobj
                      (dictUpdate (removeKey kvs "$ref") (objEntries
                      defSchema))))).card + 1) * (wKVs defs + 1) =
                      (Vset defs (ref :: resolved) (refsJ (Json.jobj
                      (dictUpdate (removeKey kvs "$ref") (objEntries
                      defSchema))))).card * (wKVs defs + 1) +
                      (wKVs defs + 1) := by ring
                  have e3 : wJ (Json.jobj kvs) = 1 + wKVs kvs := rfl
                  omega
                obtain ⟨⟨r1, j1⟩, hrun1, hpost1, hshape1⟩ :=
                  ih (ref :: resolved) (.res (Json.jobj (dictUpdate
                    (removeKey kvs "$ref") (objEntries defSchema)))) hlt1
                dsimp only [taskJson] at hpost1 hshape1
                obtain ⟨pre1, heq1, hnd1, hpre1, hrefs1, hw1⟩ := hpost1
                dsimp only at heq1 hrefs1 hw1
                have hphase1 : RunPost defs resolved (refsKVs kvs)
                    (wJ (Json.jobj kvs)) (r1, j1) := by
                  refine ⟨pre1 ++ [ref], ?_, ?_, ?_, ?_, ?_⟩
                  · dsimp only
                    rw [heq1, List.append_assoc, List.singleton_append]
                  · rw [List.nodup_append]
                    refine ⟨hnd1, List.nodup_singleton ref, ?_⟩
                    intro x hx1 hxr
                    rw [List.mem_singleton] at hxr
                    subst hxr
                    exact (hpre1 x hx1).2 (List.mem_cons_self _ _)
                  · intro x hx
                    rcases List.mem_append.mp hx with hx1 | hxr
                    · obtain ⟨hin, hout⟩ := hpre1 x hx1
                      refine ⟨?_, ?_⟩
                      · rcases hin with h1 | h2
                        · exact hrefsM x h1
                        · exact Or.inr h2
                      · intro hc
                        exact hout (List.mem_cons_of_mem _ hc)
                    · rw [List.mem_singleton] at hxr
                      subst hxr
                      exact ⟨Or.inl (ref_mem_refsKVs href), hmem⟩
                  · intro x hx
                    dsimp only at hx
                    rcases hrefs1 x hx with h1 | h2
                    · exact hrefsM x h1
                    · exact Or.inr h2
                  · dsimp only
                    rw [List.length_append, List.length_singleton]
                    have hdist : (pre1.length + 1) * wKVs defs =
                        pre1.length * wKVs defs + wKVs defs := Nat.succ_mul _ _
                    have e3 : wJ (Json.jobj kvs) = 1 + wKVs kvs := rfl
                    omega
                have hrefr1 : ref ∈ r1 := by
                  rw [heq1]
                  simp
                have hne : r1 ≠ resolved := fun h => hmem (h ▸ hrefr1)
                have hlt2 : muT defs r1 (.aft j1) < n := by
                  simp only [muT, taskJson]
                  have h1 := RunPost_muA_strict hphase1 hne
                  dsimp only at h1
                  have h2 : muA defs resolved (refsKVs kvs)
                      (wJ (Json.jobj kvs)) ≤ n := by omega
                  omega
                obtain ⟨out, hrun2, hpost2, hshape2⟩ := ih r1 (.aft j1) hlt2
                dsimp only [taskJson] at hpost2 hshape2
                refine ⟨out, ?_, RunPost_trans hphase1 hpost2, ?_⟩
                · simp only [runResolve]
                  rw [href]
                  dsimp only
                  rw [if_neg hmem, hd]
                  dsimp only
                  rw [hrun1]
                  dsimp only
                  exact hrun2
                · rcases hshape2 with h | h
                  · rcases hshape1 with h2 | ⟨k2, h2⟩
                    · exact Or.inr ⟨_, h.trans h2⟩
                    · exact Or.inr ⟨k2, h.trans h2⟩
                  · exact Or.inr h
    | aft j =>
      simp only [muT, taskJson] at hmu
      dsimp only [taskJson]
      have hb : muA defs resolved (refsJ j) (wJ j) ≤ n := by omega
      cases j with
      | null =>
        exact ⟨(resolved, .null), rfl,
          RunPost_refl _ _ _ _ _ (fun x hx => Or.inl hx) le_rfl, Or.inl rfl⟩
      | jbool b =>
        exact ⟨(resolved, .jbool b), rfl,
          RunPost_refl _ _ _ _ _ (fun x hx => Or.inl hx) le_rfl, Or.inl rfl⟩
      | jint m =>
        exact ⟨(resolved, .jint m), rfl,
          RunPost_refl _ _ _ _ _ (fun x hx => Or.inl hx) le_rfl, Or.inl rfl⟩
      | jstr s =>
        exact ⟨(resolved, .jstr s), rfl,
          RunPost_refl _ _ _ _ _ (fun x hx => Or.inl hx) le_rfl, Or.inl rfl⟩
      | jarr xs =>
        exact ⟨(resolved, .jarr xs), rfl,
          RunPost_refl _ _ _ _ _ (fun x hx => Or.inl hx) le_rfl, Or.inl rfl⟩
      | jobj kvs =>
        rcases ha : lookup? kvs "anyOf" with _ | av
        · obtain ⟨out, hT, hP, hS⟩ := aftTail defs n ih resolved (.jobj kvs) hb
          refine ⟨out, ?_, hP, hS⟩
          simp only [runResolve]
          rw [ha]
          exact hT
        · cases av with
          | null =>
            obtain ⟨out, hT, hP, hS⟩ := aftTail defs n ih resolved (.jobj kvs) hb
            refine ⟨out, ?_, hP, hS⟩
            simp only [runResolve]
            rw [ha]
            exact hT
          | jbool b =>
            obtain ⟨out, hT, hP, hS⟩ := aftTail defs n ih resolved (.jobj kvs) hb
            refine ⟨out, ?_, hP, hS⟩
            simp only [runResolve]
            rw [ha]
            exact hT
          | jint m =>
            obtain ⟨out, hT, hP, hS⟩ := aftTail defs n ih resolved (.jobj kvs) hb
            refine ⟨out, ?_, hP, hS⟩
            simp only [runResolve]
            rw [ha]
            exact hT
          | jstr s =>
            obtain ⟨out, hT, hP, hS⟩ := aftTail defs n ih resolved (.jobj kvs) hb
            refine ⟨out, ?_, hP, hS⟩
            simp only [runResolve]
            rw [ha]
            exact hT
          | jobj okvs =>
            obtain ⟨out, hT, hP, hS⟩ := aftTail defs n ih resolved (.jobj kvs) hb
            refine ⟨out, ?_, hP, hS⟩
            simp only [runResolve]
            rw [ha]
            exact hT
          | jarr options =>
            rcases ho : firstNonNullOption options with _ | opt
            · obtain ⟨out, hT, hP, hS⟩ :=
                aftTail defs n ih resolved (.jobj kvs) hb
              refine ⟨out, ?_, hP, hS⟩
              simp only [runResolve]
              rw [ha]
              dsimp only
              rw [ho]
              exact hT
            · -- the anyOf collapse recurses on the merged option
              obtain ⟨hoMem, okvs, hoObj⟩ := firstNonNullOption_mem ho
              have hrefsA : ∀ x ∈ refsJ (Json.jobj (dictUpdate
                  (removeKey kvs "anyOf") (objEntries opt))),
                  x ∈ refsKVs kvs := by
                intro x hx
                rcases refsKVs_dictUpdate x hx with h1 | h2
                · exact refsKVs_removeKey x h1
                · exact refsJ_lookup ha x (refsL_mem hoMem x
                    (refsKVs_objEntries x h2))
              have hwA : wJ (Json.jobj (dictUpdate (removeKey kvs "anyOf")
                  (objEntries opt))) + 2 ≤ wJ (Json.jobj kvs) := by
                have e1 : wJ (Json.jobj (dictUpdate (removeKey kvs "anyOf")
                    (objEntries opt))) = 1 + wKVs (dictUpdate
                    (removeKey kvs "anyOf") (objEntries opt)) := rfl
                have h4 := @wKVs_dictUpdate_le (removeKey kvs "anyOf")
                  (objEntries opt)
                have h5 := @wKVs_objEntries_le opt
                have h6 := wL_mem hoMem
                have h7 := wKVs_lookup ha
                have e2 : wJ (Json.jarr options) = 1 + wL options := rfl
                have e3 : wJ (Json.jobj kvs) = 1 + wKVs kvs := rfl
                omega
              have hbO : muA defs resolved (refsKVs kvs)
                  (wJ (Json.jobj kvs)) ≤ n := hb
              have hltA : muT defs resolved (.res (Json.jobj (dictUpdate
                  (removeKey kvs "anyOf") (objEntries opt)))) < n := by
                simp only [muT, taskJson]
                have hcardA : (Vset defs resolved (refsJ (Json.jobj
                    (dictUpdate (removeKey kvs "anyOf") (objEntries
                    opt))))).card ≤
                    (Vset defs resolved (refsKVs kvs)).card :=
                  Vset_card_le (fun x hx => hx)
                    (fun x hx => Or.inl (hrefsA x hx))
                unfold muA at hbO ⊢
                have hmul := Nat.mul_le_mul_right (wKVs defs + 1) hcardA
                omega
              obtain ⟨⟨rA, jA⟩, hrunA, hpostA, hshapeA⟩ :=
                ih resolved (.res (Json.jobj (dictUpdate
                  (removeKey kvs "anyOf") (objEntries opt)))) hltA
              dsimp only [taskJson] at hpostA hshapeA
              have hphaseA : RunPost defs resolved (refsKVs kvs)
                  (wJ (Json.jobj kvs)) (rA, jA) :=
                RunPost_weaken (fun x hx => Or.inl (hrefsA x hx))
                  (by omega) hpostA
              have hbA : muA defs rA (refsJ jA) (wJ jA) ≤ n := by
                have h1 := RunPost_muA hphaseA
                dsimp only at h1
                exact le_trans h1 hbO
              obtain ⟨out, hT, hP, hS⟩ := aftTail defs n ih rA jA hbA
              refine ⟨out, ?_, RunPost_trans hphaseA hP, ?_⟩
              · simp only [runResolve]
                rw [ha]
                dsimp only
                rw [ho]
                dsimp only
                rw [hrunA]
                exact hT
              · rcases hS with h | h
                · rcases hshapeA with h2 | ⟨k2, h2⟩
                  · exact Or.inr ⟨_, h.trans h2⟩
                  · exact Or.inr ⟨k2, h.trans h2⟩
                · exact Or.inr h

/-- C8 (corrected): (1) flattening terminates on EVERY input schema —
some fuel always suffices; (2) a `$ref` whose reference string is
already in `resolved_refs` is replaced by the generic open-ended object
marker and returned early — and since `resolved_refs` is one global set
shared across the whole traversal, this cut is NOT per-path; (3)
consequently, for the whole `sibSchemaP` family, a reference merely
reused at a sibling position is NOT resolved inline: the first sibling
occurrence is inlined and the second becomes the marker. -/
theorem claim_C8 :
    (∀ schema : Json, ∃ fuel out, get_flattened_schema fuel schema = some out) ∧
    (∀ (defs : List (String × Json)) (fuel : Nat) (resolved : List String)
        (kvs : List (String × Json)) (ref : String),
        lookup? kvs "$ref" = some (.jstr ref) → ref ∈ resolved →
        runResolve defs (fuel + 1) resolved (.res (.jobj kvs)) =
          some (resolved, markerObj kvs)) ∧
    (∀ t : String,
      get_flattened_schema 100 (sibSchemaP t) = some (sibFlattenedP t)) := by
  refine ⟨?_, ?_, ?_⟩
  · intro schema
    cases schema with
    | null => exact ⟨0, .null, rfl⟩
    | jbool b => exact ⟨0, .jbool b, rfl⟩
    | jint m => exact ⟨0, .jint m, rfl⟩
    | jstr s => exact ⟨0, .jstr s, rfl⟩
    | jarr xs => exact ⟨0, .jarr xs, rfl⟩
    | jobj kvs =>
      rcases hdv : lookup? kvs "$defs" with _ | defsVal
      · refine ⟨0, .jobj kvs, ?_⟩
        simp only [get_flattened_schema]
        rw [hdv]
      · obtain ⟨⟨r, out⟩, hrun, -, -⟩ :=
          runResolve_adequate (objEntries defsVal)
            (muT (objEntries defsVal) []
              (.res (.jobj (removeKey kvs "$defs"))) + 1)
            [] (.res (.jobj (removeKey kvs "$defs"))) (Nat.lt_succ_self _)
        refine ⟨muT (objEntries defsVal) []
              (.res (.jobj (removeKey kvs "$defs"))) + 1, out, ?_⟩
        simp only [get_flattened_schema]
        rw [hdv]
        simp only [resolveDefs]
        rw [hrun]
  · intro defs fuel resolved kvs ref href hmem
    simp only [runResolve]
    rw [href]
    dsimp only
    rw [if_pos hmem]
  · intro t
    rfl

/-- Witness for C8: the global-cut clause at a concrete state — a node
whose `$ref` string is already resolved becomes the object marker. -/
theorem claim_C8_witness :
    runResolve [] 1 ["#/$defs/X"]
      (.res (.jobj [("$ref", .jstr "#/$defs/X")])) =
      some (["#/$defs/X"], markerObj [("$ref", .jstr "#/$defs/X")]) :=
  claim_C8.2.1 [] 0 ["#/$defs/X"] [("$ref", .jstr "#/$defs/X")]
    "#/$defs/X" rfl (by simp)

end PromptExp
